import Mathlib

/-!
# PCM reader: an embedding of `src/pcmreader.c`

The C file is compiled in one of two variants: the managed-object variant
(`#ifndef STANDALONE`, a Python object with `read`/`close` members) and the
raw-stream variant (`#else`, a `FILE*`).  Both are embedded here, in the
namespaces `Py` and `Standalone`.

Modelling conventions.

* A `long` is a 64-bit two's-complement integer: the result of a `long`
  multiplication is reduced into `[-2^63, 2^63)` (`to_long`), as the compiled
  code does; `/` on `long` is C division (truncation).  The byte count both
  variants compute is `byte_count`.
* The `size_t`, `Py_ssize_t` and `ia_size_t` values count bytes and samples
  of buffers that exist in memory and are natural numbers.
* `malloc`/`free` of the reader record and of the callback nodes act on an
  explicit `Heap`; an invalid `free` is undefined behaviour (`none`).
* A singly linked chain `node -> next -> ... -> NULL` is a `List` of nodes.
* A handler is a foreign function pointer: calling it is recorded as a
  `callback_call` (which handler, which context, which bytes, which length).
* Python reference counting (`Py_DECREF`) is not tracked.
-/

namespace PcmReader

/-! ## C integers -/

/-- The value a `long` holds for the arithmetic result `x`: `x` reduced into
`[-2^63, 2^63)`. -/
def to_long (x : Int) : Int := (x + 2 ^ 63) % 2 ^ 64 - 2 ^ 63

/-- The expression `sample_count * reader->bits_per_sample * samples->size / 8`
of both `pcmr_read` variants: two `long` multiplications, left to right, and a
truncating division. -/
def byte_count (sample_count bits_per_sample : Int) (size : Nat) : Int :=
  Int.tdiv (to_long (to_long (sample_count * bits_per_sample) * (size : Int))) 8

/-! ## Memory -/

/-- The allocator state: the addresses currently allocated and the next
fresh address. -/
structure Heap where
  live : List Nat
  next : Nat
deriving DecidableEq, Repr

/-- The call `malloc(sizeof ...)`: returns a fresh address. -/
def malloc (h : Heap) : Nat × Heap :=
  (h.next, { live := h.next :: h.live, next := h.next + 1 })

/-- The call `free(p)`: undefined (`none`) unless `p` is allocated. -/
def free (h : Heap) (p : Nat) : Option Heap :=
  if p ∈ h.live then some { h with live := h.live.erase p } else none

/-! ## Callback chain -/

/-- A node `struct pcmr_callback`; `addr` is the address `malloc` returned for
it, `callback` the function pointer, `data` the context pointer.  The `next`
link is the tail of the list the node sits in. -/
structure pcmr_callback where
  addr : Nat
  callback : Nat
  data : Nat
deriving DecidableEq, Repr

/-- One invocation `node->callback(node->data, buffer, length)`. -/
structure callback_call where
  callback : Nat
  data : Nat
  buffer : List Nat
  length : Nat
deriving DecidableEq, Repr

/-- The loop `for (node = reader->callback; node != NULL; node = next)` of
`pcmr_read`, which calls every node's handler on the same buffer and length. -/
def apply_callbacks : List pcmr_callback → List Nat → Nat → List callback_call
  | [], _, _ => []
  | node :: next, buffer, buffer_length =>
    { callback := node.callback, data := node.data, buffer := buffer,
      length := buffer_length } :: apply_callbacks next buffer buffer_length

/-- The loop `for (callback = reader->callback; callback != NULL; callback = next)`
of `pcmr_close`, which frees every node; returns the heap and the addresses
freed, in order. -/
def free_callbacks : Heap → List pcmr_callback → Option (Heap × List Nat)
  | h, [] => some (h, [])
  | h, callback :: next =>
    match free h callback.addr with
    | none => none
    | some h1 =>
      match free_callbacks h1 next with
      | none => none
      | some (h2, freed) => some (h2, callback.addr :: freed)

/-! ## Integer arrays (`array.h`, not among the sources) -/

/-- An `struct i_array`: a growable array of samples. -/
abbrev i_array := List Int

/-- An `struct ia_array`: an array of `i_array`; its `size` member is the
length of the list. -/
abbrev ia_array := List i_array

/-- Modelled from the spec: `array.h` is missing; the container "supports
reset() (clear to empty)". -/
def ia_reset (_a : i_array) : i_array := []

/-- Modelled from the spec: `array.h` is missing; the container supports
"append(value)". -/
def ia_append (a : i_array) (value : Int) : i_array := a ++ [value]

/-- Modelled from the spec: `array.h` is missing; the container is "indexable
by channel number"; an index past the end is an out-of-bounds access
(`none`). -/
def iaa_getitem (samples : ia_array) (i : Nat) : Option i_array := samples[i]?

/-! ## Sample codec (`pcm.c`, not among the sources) -/

/-- The unsigned value of a little-endian byte string. -/
def le_value : List Nat → Nat
  | [] => 0
  | b :: bs => b + 256 * le_value bs

/-- Modelled from the spec: `pcm.c` is missing; the decoder of one sample
"sign-extends if is_signed is false by subtracting the mid-point bias for the
given bit depth; applies byte-order swap per sample when big_endian is true". -/
def FrameList_get_char_to_int_converter (bits_per_sample big_endian is_signed : Int) :
    List Nat → Int := fun s =>
  let u : Int := (le_value (if big_endian ≠ 0 then s.reverse else s) : Nat)
  if is_signed ≠ 0 then
    (if (2 : Int) ^ (bits_per_sample.toNat - 1) ≤ u then u - 2 ^ bits_per_sample.toNat else u)
  else u - 2 ^ (bits_per_sample.toNat - 1)

/-- Modelled from the spec: `pcm.c` is missing; the encoder of one sample is
the "inverse operation" of the decoder, here for any byte order and
signedness (the reader only ever asks for little-endian, signed). -/
def FrameList_get_int_to_char_converter (bits_per_sample big_endian is_signed : Int) :
    Int → List Nat := fun v =>
  let w : Nat := (Int.tdiv bits_per_sample 8).toNat
  let u : Int := (if is_signed ≠ 0 then v else v + 2 ^ (bits_per_sample.toNat - 1)) % 2 ^ (8 * w)
  let le : List Nat := (List.range w).map (fun k => (u / 256 ^ k % 256).toNat)
  if big_endian ≠ 0 then le.reverse else le

/-- Modelled from the spec: `pcm.c` is missing; "interprets raw_bytes as
tightly packed fixed-width samples": sample `i` is decoded from the
`bits_per_sample / 8` bytes at offset `i * (bits_per_sample / 8)`. -/
def FrameList_char_to_samples (data : List Nat) (converter : List Nat → Int)
    (samples_length : Nat) (bits_per_sample : Int) : List Int :=
  let w : Nat := (Int.tdiv bits_per_sample 8).toNat
  (List.range samples_length).map (fun i => converter ((data.drop (i * w)).take w))

/-- Modelled from the spec: `pcm.c` is missing; the inverse of
`FrameList_char_to_samples`, writing the encoding of the first
`samples_length` samples over the start of `data` and leaving the bytes after
them as they were. -/
def FrameList_samples_to_char (data : List Nat) (samples : List Int)
    (converter : Int → List Nat) (samples_length : Nat) (bits_per_sample : Int) : List Nat :=
  let w : Nat := (Int.tdiv bits_per_sample 8).toNat
  ((List.range samples_length).map (fun i => converter (samples.getD i 0))).flatten
    ++ data.drop (samples_length * w)

/-! ## Channel split (the nested loop shared by both `pcmr_read` variants) -/

/-- The inner loop `for (j = i; j < buffer_samples_length; j += reader->channels)
ia_append(channel, buffer_samples[j])`, with a fuel bound; `none` when the
fuel is used up before the loop ends. -/
def split_channel (channels : Int) (buffer_samples : List Int) (buffer_samples_length : Nat) :
    Nat → Nat → i_array → Option i_array
  | 0, _, _ => none
  | fuel + 1, j, channel =>
    if j < buffer_samples_length then
      split_channel channels buffer_samples buffer_samples_length fuel ((j : Int) + channels).toNat
        (ia_append channel (buffer_samples.getD j 0))
    else some channel

/-- The outer loop `for (i = 0; i < reader->channels; i++)`: gets channel
`i` of `samples`, resets it and fills it by the inner loop.  The inner loop
runs at most `buffer_samples_length` times, so it gets that much fuel plus
one; the outer loop stops at the latest when `i` leaves `samples`. -/
def split_channels (channels : Int) (buffer_samples : List Int) (buffer_samples_length : Nat) :
    Nat → Nat → ia_array → Option ia_array
  | 0, _, _ => none
  | fuel + 1, i, samples =>
    if (i : Int) < channels then
      match iaa_getitem samples i with
      | none => none
      | some channel =>
        match split_channel channels buffer_samples buffer_samples_length
            (buffer_samples_length + 1) i (ia_reset channel) with
        | none => none
        | some filled =>
          split_channels channels buffer_samples buffer_samples_length fuel (i + 1)
            (samples.set i filled)
    else some samples

/-! ## Managed-object variant (`#ifndef STANDALONE`) -/

namespace Py

/-- A `pcm_FrameList` object: its `samples` member (`samples_length` is the
length of the list) and what its methods need, the bit depth and the
signedness of the stored samples. -/
structure pcm_FrameList where
  samples : List Int
  bits_per_sample : Int
  is_signed : Bool
deriving DecidableEq, Repr

/-- Modelled from the spec: `pcm.c` is missing; the method `set_signed`
makes unsigned samples signed in place "by subtracting the mid-point bias for
the given bit depth". -/
def set_signed (fl : pcm_FrameList) : pcm_FrameList :=
  if fl.is_signed then fl
  else { fl with samples := fl.samples.map (fun v => v - 2 ^ (fl.bits_per_sample.toNat - 1)),
                 is_signed := true }

/-- Modelled from the spec: `pcm.c` is missing; the method
`to_bytes(big_endian, is_signed)` is the codec's "encode" at the FrameList's
own bit depth.  The result is a Python string, or `none` for a raised
exception (the model never raises). -/
def to_bytes (fl : pcm_FrameList) (big_endian is_signed : Int) : Option (List Nat) :=
  some ((fl.samples.map
    (FrameList_get_int_to_char_converter fl.bits_per_sample big_endian is_signed)).flatten)

/-- What a call of a Python callable can return, as far as `pcmr_read` and
`pcmr_close` look at it: a FrameList, or an object of any other type. -/
inductive PyResult where
  | FrameList (fl : pcm_FrameList)
  | other

/-- A Python object as the C API calls of this file see it: `as_long` is
what `PyInt_AsLong` converts it to (`none` when the conversion raises),
`callable` is `PyCallable_Check`, and `call` is `PyEval_CallObject` on an
optional integer argument (`none` when the call raises). -/
structure PyObject where
  as_long : Option Int
  callable : Bool
  call : Option Int → Option PyResult

/-- The `pcmreader` argument of `pcmr_open`: each member is what
`PyObject_GetAttrString` finds under that name (`none` when the attribute is
missing). -/
structure PyPCMReader where
  sample_rate : Option PyObject
  bits_per_sample : Option PyObject
  channels : Option PyObject
  read : Option PyObject
  close : Option PyObject

/-- The call `PyInt_AsLong(attr)`: the value, and whether an exception is
now pending (`PyErr_Occurred()`); on failure the value is `-1`. -/
def PyInt_AsLong (attr : PyObject) : Int × Bool :=
  match attr.as_long with
  | some v => (v, false)
  | none => (-1, true)

/-- The record `struct pcm_reader` of this variant; `addr` is the address
`malloc` returned for it. -/
structure pcm_reader where
  addr : Nat
  sample_rate : Int
  bits_per_sample : Int
  channels : Int
  read : PyObject
  close : PyObject
  callback : List pcmr_callback

/-- The function `pcmr_open(PyObject *pcmreader)`; the label `error` frees
the record and returns `NULL` (`none`). -/
def pcmr_open (h : Heap) (pcmreader : PyPCMReader) : Heap × Option pcm_reader :=
  let (reader, h1) := malloc h
  let error : Heap × Option pcm_reader := ((free h1 reader).getD h1, none)
  match pcmreader.sample_rate with
  | none => error
  | some attr =>
    let (sample_rate, occurred) := PyInt_AsLong attr
    if sample_rate = -1 ∧ occurred = true then error else
    match pcmreader.bits_per_sample with
    | none => error
    | some attr =>
      let (bits_per_sample, occurred) := PyInt_AsLong attr
      if bits_per_sample = -1 ∧ occurred = true then error else
      match pcmreader.channels with
      | none => error
      | some attr =>
        let (channels, occurred) := PyInt_AsLong attr
        if channels = -1 ∧ occurred = true then error else
        match pcmreader.read with
        | none => error
        | some read =>
          if ¬ read.callable = true then error else
          match pcmreader.close with
          | none => error
          | some close =>
            if ¬ close.callable = true then error else
            (h1, some { addr := reader, sample_rate := sample_rate,
                        bits_per_sample := bits_per_sample, channels := channels,
                        read := read, close := close, callback := [] })

/-- What `pcmr_close` leaves behind: its return value, the heap, the
addresses it freed (in order) and whether the close of the source failed. -/
structure close_result where
  returnval : Int
  heap : Heap
  freed : List Nat
  source_close_failed : Bool
deriving DecidableEq, Repr

/-- The function `pcmr_close` of this variant. -/
def pcmr_close (h : Heap) (reader : pcm_reader) : Option close_result :=
  let result := reader.close.call none
  let returnval : Int := if result.isNone then 0 else 1
  match free_callbacks h reader.callback with
  | none => none
  | some (h1, freed) =>
    match free h1 reader.addr with
    | none => none
    | some h2 =>
      some { returnval := returnval, heap := h2, freed := freed ++ [reader.addr],
             source_close_failed := result.isNone }

/-- The function `pcmr_add_callback`. -/
def pcmr_add_callback (h : Heap) (reader : pcm_reader) (callback data : Nat) :
    Heap × pcm_reader :=
  let (callback_node, h1) := malloc h
  (h1, { reader with
    callback := { addr := callback_node, callback := callback, data := data }
                  :: reader.callback })

/-- The interpreter state `pcmr_read` depends on: whether
`PyImport_ImportModule("audiotools.pcm")` succeeds and whether the module has
the attribute `FrameList`. -/
structure PyEnv where
  pcm_module : Bool
  FrameList_type : Bool
deriving DecidableEq, Repr

/-- What `pcmr_read` leaves behind: its return value, the caller's
`samples`, the byte counts of the reads it issued to the source, the flat
sample sequence it split (`buffer_samples`), and the handler invocations. -/
structure read_result where
  returnval : Int
  samples : ia_array
  source_reads : List Int
  buffer_samples : List Int
  calls : List callback_call
deriving DecidableEq, Repr

/-- The function `pcmr_read` of this variant; `none` is undefined behaviour
(a channel index outside `samples`).  The value of `to_bytes` is a Python
string, so `PyString_AsStringAndSize` on it does not fail. -/
def pcmr_read (env : PyEnv) (reader : pcm_reader) (sample_count : Int) (samples : ia_array) :
    Option read_result :=
  let args : Int := byte_count sample_count reader.bits_per_sample samples.length
  let error (s : ia_array) (b : List Int) : Option read_result :=
    some { returnval := 0, samples := s, source_reads := [args], buffer_samples := b, calls := [] }
  match reader.read.call (some args) with
  | none => error samples []
  | some framelist_obj =>
    if ¬ env.pcm_module = true then error samples [] else
    if ¬ env.FrameList_type = true then error samples [] else
    match framelist_obj with
    | PyResult.other => error samples []
    | PyResult.FrameList framelist =>
      let buffer_samples_length : Nat := framelist.samples.length
      let framelist := set_signed framelist
      let buffer_samples := framelist.samples
      match split_channels reader.channels buffer_samples buffer_samples_length
          (samples.length + 1) 0 samples with
      | none => none
      | some samples1 =>
        match to_bytes framelist 0 1 with
        | none => error samples1 buffer_samples
        | some buffer =>
          let buffer_length : Nat := buffer.length
          some { returnval := 1, samples := samples1, source_reads := [args],
                 buffer_samples := buffer_samples,
                 calls := apply_callbacks reader.callback buffer buffer_length }

end Py

/-! ## Raw-stream variant (`#else`) -/

namespace Standalone

/-- A `FILE*` open for reading: the bytes not yet consumed, and what
`fclose` will return for it (`0`, or `EOF = -1` on failure). -/
structure FILE where
  data : List Nat
  fclose_result : Int
deriving DecidableEq, Repr

/-- The call `fread(buffer, 1, n, f)`: the bytes stored in `buffer` (the
return value is their number) and the stream after it. -/
def fread (n : Nat) (f : FILE) : List Nat × FILE :=
  (f.data.take n, { f with data := f.data.drop n })

/-- The call `fclose(f)`. -/
def fclose (f : FILE) : Int := f.fclose_result

/-- The record `struct pcm_reader` of this variant; `addr` is the address
`malloc` returned for it. -/
structure pcm_reader where
  addr : Nat
  read : FILE
  sample_rate : Int
  channels : Int
  bits_per_sample : Int
  big_endian : Int
  is_signed : Int
  callback : List pcmr_callback
deriving DecidableEq, Repr

/-- The function `pcmr_open(FILE*, sample_rate, channels, bits_per_sample,
big_endian, is_signed)`. -/
def pcmr_open (h : Heap) (pcmreader : FILE)
    (sample_rate channels bits_per_sample big_endian is_signed : Int) : Heap × pcm_reader :=
  let (reader, h1) := malloc h
  (h1, { addr := reader, read := pcmreader, sample_rate := sample_rate, channels := channels,
         bits_per_sample := bits_per_sample, big_endian := big_endian,
         is_signed := is_signed, callback := [] })

/-- What `pcmr_close` leaves behind: its return value, the heap, the
addresses it freed (in order) and whether the close of the source failed. -/
structure close_result where
  returnval : Int
  heap : Heap
  freed : List Nat
  source_close_failed : Bool
deriving DecidableEq, Repr

/-- The function `pcmr_close` of this variant: the value of `fclose` is not
looked at. -/
def pcmr_close (h : Heap) (reader : pcm_reader) : Option close_result :=
  match free_callbacks h reader.callback with
  | none => none
  | some (h1, freed) =>
    let closed := fclose reader.read
    match free h1 reader.addr with
    | none => none
    | some h2 =>
      some { returnval := 1, heap := h2, freed := freed ++ [reader.addr],
             source_close_failed := decide (closed ≠ 0) }

/-- The function `pcmr_add_callback`. -/
def pcmr_add_callback (h : Heap) (reader : pcm_reader) (callback data : Nat) :
    Heap × pcm_reader :=
  let (callback_node, h1) := malloc h
  (h1, { reader with
    callback := { addr := callback_node, callback := callback, data := data }
                  :: reader.callback })

/-- What `pcmr_read` leaves behind: its return value, the caller's
`samples`, the stream, the byte counts of the reads it issued to the source,
the decoded flat sample sequence (`buffer_samples`), and the handler
invocations. -/
structure read_result where
  returnval : Int
  samples : ia_array
  read : FILE
  source_reads : List Nat
  buffer_samples : List Int
  calls : List callback_call
deriving DecidableEq, Repr

/-- The function `pcmr_read` of this variant.  `none` is undefined
behaviour: a negative byte count (as a `size_t` it is at least `2^63`, `malloc`
returns `NULL` for it and `fread` stores through that), `bits_per_sample / 8`
not positive (division by zero, or a negative divisor converted to `size_t`),
or a channel index outside `samples`. -/
def pcmr_read (reader : pcm_reader) (sample_count : Int) (samples : ia_array) :
    Option read_result :=
  let request : Int := byte_count sample_count reader.bits_per_sample samples.length
  if request < 0 then none else
  let (buffer, file) := fread request.toNat reader.read
  let buffer_length : Nat := buffer.length
  let bytes_per_sample : Int := Int.tdiv reader.bits_per_sample 8
  if bytes_per_sample ≤ 0 then none else
  let buffer_samples_length : Nat := buffer_length / bytes_per_sample.toNat
  let buffer_samples := FrameList_char_to_samples buffer
    (FrameList_get_char_to_int_converter reader.bits_per_sample reader.big_endian reader.is_signed)
    buffer_samples_length reader.bits_per_sample
  match split_channels reader.channels buffer_samples buffer_samples_length
      (samples.length + 1) 0 samples with
  | none => none
  | some samples1 =>
    let buffer1 := FrameList_samples_to_char buffer buffer_samples
      (FrameList_get_int_to_char_converter reader.bits_per_sample 0 1)
      buffer_samples_length reader.bits_per_sample
    some { returnval := 1, samples := samples1, read := file,
           source_reads := [request.toNat], buffer_samples := buffer_samples,
           calls := apply_callbacks reader.callback buffer1 buffer_length }

end Standalone

/-! ## Registration sequences -/

/-- Registers the handlers of `regs` (pairs of handler and context), first
to last, by `pcmr_add_callback`. -/
def Py.register_all : Heap → Py.pcm_reader → List (Nat × Nat) → Heap × Py.pcm_reader
  | h, reader, [] => (h, reader)
  | h, reader, (callback, data) :: rest =>
    let (h1, reader1) := Py.pcmr_add_callback h reader callback data
    Py.register_all h1 reader1 rest

/-- Registers the handlers of `regs` (pairs of handler and context), first
to last, by `pcmr_add_callback`. -/
def Standalone.register_all :
    Heap → Standalone.pcm_reader → List (Nat × Nat) → Heap × Standalone.pcm_reader
  | h, reader, [] => (h, reader)
  | h, reader, (callback, data) :: rest =>
    let (h1, reader1) := Standalone.pcmr_add_callback h reader callback data
    Standalone.register_all h1 reader1 rest

/-- Modelled from the spec: the codec's `encode(samples, bits_per_sample)`,
"always producing signed, little-endian output": the concatenation of the
signed little-endian encodings of the samples. -/
def encode (samples : List Int) (bits_per_sample : Int) : List Nat :=
  (samples.map (FrameList_get_int_to_char_converter bits_per_sample 0 1)).flatten

/-! ## Notions used in the statements, and example inputs -/

/-- The elements the inner loop appends: position `k` holds sample `j + k * c` as long
as that index is below `n`. -/
def stride_spec (s : List Int) (n c j : Nat) (t : List Int) : Prop :=
  ∀ k, t[k]? = if j + k * c < n then some (s.getD (j + k * c) 0) else none

/-- The bytes `fread` stores in `buffer` for the request `pcmr_read` makes: at most
`byte_count` of them, fewer at the end of the stream. -/
def Standalone.supplied (reader : Standalone.pcm_reader) (sample_count : Int)
    (samples : ia_array) : List Nat :=
  (Standalone.fread
    (byte_count sample_count reader.bits_per_sample samples.length).toNat reader.read).1

/-- The arithmetic result `x` is representable in a `long`. -/
def fits_long (x : Int) : Prop := -2 ^ 63 ≤ x ∧ x < 2 ^ 63

/-- A 16-bit little-endian signed stereo stream holding the three frames
`(1, 2), (3, 4), (5, 6)`. -/
def ex_file : Standalone.FILE :=
  { data := [1, 0, 2, 0, 3, 0, 4, 0, 5, 0, 6, 0], fclose_result := 0 }

/-- A reader opened on `ex_file` as 44100 Hz, 2 channels, 16 bits, little-endian,
signed. -/
def ex_reader : Standalone.pcm_reader :=
  (Standalone.pcmr_open { live := [], next := 0 } ex_file 44100 2 16 0 1).2

/-- The reader `ex_reader` on a stream that ends after five bytes: two whole samples
and half a sample. -/
def ex_reader_misaligned : Standalone.pcm_reader :=
  { ex_reader with read := { data := [1, 0, 2, 0, 3], fclose_result := 0 } }

/-- The reader `ex_reader` with one handler (function 7, context 70) registered. -/
def ex_reader_one_callback : Standalone.pcm_reader :=
  (Standalone.pcmr_add_callback { live := [0], next := 1 } ex_reader 7 70).2

/-- The reader `ex_reader_misaligned` with one handler registered. -/
def ex_reader_misaligned_callback : Standalone.pcm_reader :=
  { ex_reader_one_callback with read := { data := [1, 0, 2, 0, 3], fclose_result := 0 } }

/-- What `pcmr_read` returns for `ex_reader`, 4 frames and an output array of three
channels. -/
def ex_result_wide : Standalone.read_result :=
  { returnval := 1, samples := [[1, 3, 5], [2, 4, 6], []],
    read := { data := [], fclose_result := 0 },
    source_reads := [24], buffer_samples := [1, 2, 3, 4, 5, 6], calls := [] }

/-- What `pcmr_read` returns for `ex_reader_one_callback`, 3 frames and an output array
of two channels. -/
def ex_result_callback : Standalone.read_result :=
  { returnval := 1, samples := [[1, 3, 5], [2, 4, 6]],
    read := { data := [], fclose_result := 0 },
    source_reads := [12], buffer_samples := [1, 2, 3, 4, 5, 6],
    calls := [{ callback := 7, data := 70,
                buffer := [1, 0, 2, 0, 3, 0, 4, 0, 5, 0, 6, 0], length := 12 }] }

/-- A well-formed allocator state: no address is allocated twice and every allocated
address is below the next fresh one. -/
def Heap.wf (h : Heap) : Prop := h.live.Nodup ∧ ∀ a ∈ h.live, a < h.next

/-- A Python integer object. -/
def ex_int (v : Int) : Py.PyObject :=
  { as_long := some v, callable := false, call := fun _ => none }

/-- A Python method that returns, whatever it is called with, the 16-bit signed stereo
FrameList of the three frames `(1, 2), (3, 4), (5, 6)`. -/
def ex_read_method : Py.PyObject :=
  { as_long := none, callable := true,
    call := fun _ => some (Py.PyResult.FrameList
      { samples := [1, 2, 3, 4, 5, 6], bits_per_sample := 16, is_signed := true }) }

/-- A Python method whose call raises. -/
def ex_failing_method : Py.PyObject :=
  { as_long := none, callable := true, call := fun _ => none }

/-- A Python source object: 44100 Hz, 16 bits, 2 channels, a working `read` and a
`close` that raises. -/
def ex_pcmreader : Py.PyPCMReader :=
  { sample_rate := some (ex_int 44100), bits_per_sample := some (ex_int 16),
    channels := some (ex_int 2), read := some ex_read_method,
    close := some ex_failing_method }

/-- A Python source object whose `sample_rate` is 0, `bits_per_sample` is -16 and
`channels` is 0. -/
def ex_pcmreader_nonpositive : Py.PyPCMReader :=
  { ex_pcmreader with sample_rate := some (ex_int 0), bits_per_sample := some (ex_int (-16)),
                      channels := some (ex_int 0) }

/-- The reader `pcmr_open` makes of `ex_pcmreader` on the empty heap. -/
def ex_py_reader : Py.pcm_reader :=
  { addr := 0, sample_rate := 44100, bits_per_sample := 16, channels := 2,
    read := ex_read_method, close := ex_failing_method, callback := [] }

/-- The interpreter state in which `audiotools.pcm` and its `FrameList` are found. -/
def ex_env : Py.PyEnv := { pcm_module := true, FrameList_type := true }

/-- What `pcmr_read` returns for `ex_reader`, 3 frames and an output array of two
channels. -/
def ex_result : Standalone.read_result :=
  { returnval := 1, samples := [[1, 3, 5], [2, 4, 6]],
    read := { data := [], fclose_result := 0 },
    source_reads := [12], buffer_samples := [1, 2, 3, 4, 5, 6], calls := [] }

/-- The stream `ex_file` with a failing `fclose`. -/
def ex_file_bad_close : Standalone.FILE := { ex_file with fclose_result := -1 }

/-- What `pcmr_read` returns for `ex_reader` after registering handler 10 (context
100) and then handler 20 (context 200), for 3 frames. -/
def ex_result_two_callbacks : Standalone.read_result :=
  { ex_result with calls :=
      [{ callback := 20, data := 200, buffer := [1, 0, 2, 0, 3, 0, 4, 0, 5, 0, 6, 0],
         length := 12 },
       { callback := 10, data := 100, buffer := [1, 0, 2, 0, 3, 0, 4, 0, 5, 0, 6, 0],
         length := 12 }] }

/-- The reader `ex_reader` on a stream that ends after two whole frames. -/
def ex_reader_short : Standalone.pcm_reader :=
  { ex_reader with read := { data := [1, 0, 2, 0, 3, 0, 4, 0], fclose_result := 0 } }

/-- The reader `ex_reader` after registering handler 10 (context 100) and then handler
20 (context 200). -/
def ex_reader_two_callbacks : Standalone.pcm_reader :=
  { ex_reader with callback := [⟨2, 20, 200⟩, ⟨1, 10, 100⟩] }

/-- The reader `ex_reader_two_callbacks` on a stream whose `fclose` fails. -/
def ex_reader_bad_close : Standalone.pcm_reader :=
  { ex_reader_two_callbacks with read := ex_file_bad_close }

/-- The reader `ex_py_reader` after registering handler 10 (context 100) and then
handler 20 (context 200). -/
def ex_py_reader_two_callbacks : Py.pcm_reader :=
  { ex_py_reader with callback := [⟨2, 20, 200⟩, ⟨1, 10, 100⟩] }

/-- What the managed-object `pcmr_read` returns for `ex_py_reader`, 3 frames and an
output array of two channels. -/
def ex_py_result : Py.read_result :=
  { returnval := 1, samples := [[1, 3, 5], [2, 4, 6]], source_reads := [12],
    buffer_samples := [1, 2, 3, 4, 5, 6], calls := [] }

/-- What the managed-object `pcmr_read` returns for `ex_py_reader_two_callbacks`, 3
frames and an output array of two channels. -/
def ex_py_result_two_callbacks : Py.read_result :=
  { ex_py_result with calls :=
      [{ callback := 20, data := 200, buffer := [1, 0, 2, 0, 3, 0, 4, 0, 5, 0, 6, 0],
         length := 12 },
       { callback := 10, data := 100, buffer := [1, 0, 2, 0, 3, 0, 4, 0, 5, 0, 6, 0],
         length := 12 }] }

/-- What the managed-object `pcmr_read` returns for `ex_py_reader_two_callbacks` and 0
frames: the source object is asked for 0 bytes and answers with its three frames. -/
def ex_py_result_zero : Py.read_result :=
  { ex_py_result_two_callbacks with source_reads := [0] }

/-- What `pcmr_read` returns for `ex_reader`, `2^61` frames and an output array of two
channels: the byte count `2^61 * 16 * 2 / 8` is 0 in `long` arithmetic, nothing is read
and the channels are left empty. -/
def ex_result_wrapped : Standalone.read_result :=
  { returnval := 1, samples := [[], []], read := ex_file, source_reads := [0],
    buffer_samples := [], calls := [] }

/-- What the managed-object `pcmr_read` returns for `ex_py_reader` and -3 frames: the
source object is asked for -12 bytes and answers with its three frames. -/
def ex_py_result_negative : Py.read_result :=
  { ex_py_result with source_reads := [-12] }

/-! ## Lemmas -/

/-! ### The channel split loops -/

theorem split_channel_spec (channels : Int) (s : List Int) (n : Nat) (hc : 1 ≤ channels) :
    ∀ (fuel j : Nat) (channel : i_array), n - j < fuel →
      ∃ t, split_channel channels s n fuel j channel = some (channel ++ t)
        ∧ stride_spec s n channels.toNat j t := by
  intro fuel
  induction fuel with
  | zero =>
    intro j channel h
    exact absurd h (by omega)
  | succ fuel ih =>
    intro j channel h
    have hj : ((j : Int) + channels).toNat = j + channels.toNat := by omega
    have hc1 : 1 ≤ channels.toNat := by omega
    by_cases hlt : j < n
    · obtain ⟨t, ht, hs⟩ := ih (j + channels.toNat) (ia_append channel (s.getD j 0)) (by omega)
      refine ⟨s.getD j 0 :: t, ?_, ?_⟩
      · simp only [split_channel, hlt, if_true, hj, ht]
        simp [ia_append]
      · intro k
        cases k with
        | zero => simp [hlt]
        | succ k =>
          have := hs k
          simp only [List.getElem?_cons_succ, this]
          have e : j + channels.toNat + k * channels.toNat = j + (k + 1) * channels.toNat := by ring
          rw [e]
    · refine ⟨[], ?_, ?_⟩
      · simp [split_channel, hlt]
      · intro k
        have : ¬ j + k * channels.toNat < n := by
          have : 0 ≤ k * channels.toNat := Nat.zero_le _
          omega
        simp [this]

theorem split_channels_spec (channels : Int) (s : List Int) (n : Nat) :
    ∀ (fuel i : Nat) (samples out : ia_array),
      split_channels channels s n fuel i samples = some out →
        out.length = samples.length
        ∧ (∀ x, x < i → out[x]? = samples[x]?)
        ∧ (∀ x : Nat, channels ≤ (x : Int) → out[x]? = samples[x]?)
        ∧ (∀ x, i ≤ x → (x : Int) < channels →
            ∃ t, out[x]? = some t ∧ stride_spec s n channels.toNat x t) := by
  intro fuel
  induction fuel with
  | zero =>
    intro i samples out h
    simp [split_channels] at h
  | succ fuel ih =>
    intro i samples out h
    by_cases hlt : (i : Int) < channels
    · simp only [split_channels, hlt, if_true, iaa_getitem] at h
      cases hget : samples[i]? with
      | none => simp [hget] at h
      | some channel =>
        have hi : i < samples.length := by
          rcases Nat.lt_or_ge i samples.length with hlt2 | hge
          · exact hlt2
          · rw [List.getElem?_eq_none hge] at hget
            cases hget
        obtain ⟨t, ht, hs⟩ := split_channel_spec channels s n (by omega) (n + 1) i
          (ia_reset channel) (by omega)
        have hr : ia_reset channel ++ t = t := by simp [ia_reset]
        simp only [hget, ht, hr] at h
        obtain ⟨hlen, hlow, hhigh, hmid⟩ := ih (i + 1) _ out h
        refine ⟨by simpa using hlen, ?_, ?_, ?_⟩
        · intro x hx
          rw [hlow x (by omega), List.getElem?_set]
          have : i ≠ x := by omega
          simp [this]
        · intro x hx
          rw [hhigh x hx, List.getElem?_set]
          have : i ≠ x := by omega
          simp [this]
        · intro x hx1 hx2
          rcases Nat.eq_or_lt_of_le hx1 with heq | hgt
          · subst heq
            refine ⟨t, ?_, hs⟩
            rw [hlow i (by omega), List.getElem?_set]
            simp [hi]
          · exact hmid x (by omega) hx2
    · simp only [split_channels, hlt, if_false, Option.some.injEq] at h
      subst h
      refine ⟨rfl, fun _ _ => rfl, fun _ _ => rfl, ?_⟩
      intro x hx1 hx2
      exact absurd hx2 (by omega)

theorem split_channels_total (channels : Int) (s : List Int) (n : Nat) :
    ∀ (fuel i : Nat) (samples : ia_array),
      channels ≤ (samples.length : Int) → channels.toNat - i < fuel →
        ∃ out, split_channels channels s n fuel i samples = some out := by
  intro fuel
  induction fuel with
  | zero =>
    intro i samples _ h
    exact absurd h (by omega)
  | succ fuel ih =>
    intro i samples hc h
    by_cases hlt : (i : Int) < channels
    · have hi : i < samples.length := by omega
      obtain ⟨t, ht, _⟩ := split_channel_spec channels s n (by omega) (n + 1) i
        (ia_reset samples[i]) (by omega)
      obtain ⟨out, hout⟩ := ih (i + 1) (samples.set i (ia_reset samples[i] ++ t))
        (by simpa using hc) (by omega)
      refine ⟨out, ?_⟩
      simp only [split_channels, hlt, if_true, iaa_getitem, List.getElem?_eq_getElem hi, ht, hout]
    · exact ⟨samples, by simp [split_channels, hlt]⟩

/-! ### What `pcmr_read` returns -/

theorem length_FrameList_char_to_samples (data : List Nat) (conv : List Nat → Int) (n : Nat)
    (bps : Int) : (FrameList_char_to_samples data conv n bps).length = n := by
  simp [FrameList_char_to_samples]

theorem length_set_signed (fl : Py.pcm_FrameList) :
    (Py.set_signed fl).samples.length = fl.samples.length := by
  unfold Py.set_signed
  split <;> simp

/-- What the split leaves in channel `x`, read off position by position. -/
theorem stride_spec_getElem {s : List Int} {n c x : Nat} {t : List Int}
    (hs : stride_spec s n c x t) (hn : n ≤ s.length) (k : Nat) (hk : k < t.length) :
    k * c + x < s.length ∧ t[k]? = s[k * c + x]? := by
  have h := hs k
  by_cases hlt : x + k * c < n
  · have hlt2 : k * c + x < s.length := by omega
    refine ⟨hlt2, ?_⟩
    rw [h, if_pos hlt, List.getElem?_eq_getElem hlt2, List.getD_eq_getElem?_getD]
    have e : x + k * c = k * c + x := by omega
    rw [e, List.getElem?_eq_getElem hlt2]
    rfl
  · rw [if_neg hlt, List.getElem?_eq_none_iff] at h
    omega

theorem Py.pcmr_read_success {env : Py.PyEnv} {reader : Py.pcm_reader} {sample_count : Int}
    {samples : ia_array} {r : Py.read_result}
    (h : Py.pcmr_read env reader sample_count samples = some r) (hret : r.returnval = 1) :
    ∃ fl buffer,
      reader.read.call (some (byte_count sample_count reader.bits_per_sample samples.length))
          = some (Py.PyResult.FrameList fl)
      ∧ r.buffer_samples = (Py.set_signed fl).samples
      ∧ split_channels reader.channels r.buffer_samples fl.samples.length
          (samples.length + 1) 0 samples = some r.samples
      ∧ Py.to_bytes (Py.set_signed fl) 0 1 = some buffer
      ∧ r.calls = apply_callbacks reader.callback buffer buffer.length := by
  unfold Py.pcmr_read at h
  simp only at h
  split at h
  · simp only [Option.some.injEq] at h; subst h; simp at hret
  · rename_i obj hcall
    split at h
    · simp only [Option.some.injEq] at h; subst h; simp at hret
    · split at h
      · simp only [Option.some.injEq] at h; subst h; simp at hret
      · split at h
        · simp only [Option.some.injEq] at h; subst h; simp at hret
        · rename_i fl
          split at h
          · cases h
          · rename_i samples1 hsplit
            split at h
            · simp only [Option.some.injEq] at h; subst h; simp at hret
            · rename_i buffer hbytes
              simp only [Option.some.injEq] at h
              subst h
              exact ⟨fl, buffer, hcall, rfl, hsplit, hbytes, rfl⟩

theorem Standalone.pcmr_read_fields {reader : Standalone.pcm_reader} {sample_count : Int}
    {samples : ia_array} {r : Standalone.read_result}
    (h : Standalone.pcmr_read reader sample_count samples = some r) :
    r.returnval = 1
    ∧ r.source_reads
        = [(byte_count sample_count reader.bits_per_sample samples.length).toNat]
    ∧ r.read = (Standalone.fread (byte_count sample_count reader.bits_per_sample samples.length).toNat reader.read).2
    ∧ r.buffer_samples = FrameList_char_to_samples (Standalone.supplied reader sample_count samples)
        (FrameList_get_char_to_int_converter reader.bits_per_sample reader.big_endian
          reader.is_signed)
        ((Standalone.supplied reader sample_count samples).length
          / (Int.tdiv reader.bits_per_sample 8).toNat) reader.bits_per_sample
    ∧ split_channels reader.channels r.buffer_samples r.buffer_samples.length
        (samples.length + 1) 0 samples = some r.samples
    ∧ r.calls = apply_callbacks reader.callback
        (FrameList_samples_to_char (Standalone.supplied reader sample_count samples)
          r.buffer_samples (FrameList_get_int_to_char_converter reader.bits_per_sample 0 1)
          r.buffer_samples.length reader.bits_per_sample)
        (Standalone.supplied reader sample_count samples).length := by
  unfold Standalone.pcmr_read at h
  simp only at h
  split at h
  · cases h
  · split at h
    · cases h
    · split at h
      · cases h
      · rename_i samples1 hsplit
        simp only [Option.some.injEq] at h
        subst h
        simp only [length_FrameList_char_to_samples]
        exact ⟨trivial, trivial, trivial, rfl, hsplit, rfl⟩

theorem Standalone.pcmr_read_total (reader : Standalone.pcm_reader) (sample_count : Int)
    (samples : ia_array)
    (hreq : 0 ≤ byte_count sample_count reader.bits_per_sample samples.length)
    (hw : 0 < Int.tdiv reader.bits_per_sample 8)
    (hc : reader.channels ≤ (samples.length : Int)) :
    ∃ r, Standalone.pcmr_read reader sample_count samples = some r := by
  obtain ⟨out, hout⟩ := split_channels_total reader.channels
    (FrameList_char_to_samples (Standalone.supplied reader sample_count samples)
        (FrameList_get_char_to_int_converter reader.bits_per_sample reader.big_endian
          reader.is_signed)
        ((Standalone.supplied reader sample_count samples).length
          / (Int.tdiv reader.bits_per_sample 8).toNat) reader.bits_per_sample)
    ((Standalone.supplied reader sample_count samples).length
          / (Int.tdiv reader.bits_per_sample 8).toNat)
    (samples.length + 1) 0 samples hc (by omega)
  unfold Standalone.pcmr_read
  simp only [not_lt.mpr hreq, not_le.mpr hw, if_false]
  unfold Standalone.supplied at hout
  simp only [hout]
  exact ⟨_, rfl⟩

theorem stride_spec_length {s : List Int} {m c x : Nat} {t : List Int}
    (hs : stride_spec s (m * c) c x t) (hx : x < c) : t.length = m := by
  have h1 := hs m
  rw [if_neg (by omega), List.getElem?_eq_none_iff] at h1
  cases m with
  | zero => omega
  | succ m =>
    have h2 := hs m
    have e : (m + 1) * c = m * c + c := Nat.succ_mul m c
    rw [if_pos (by omega)] at h2
    have h3 : m < t.length := by
      by_contra hcon
      rw [List.getElem?_eq_none (by omega)] at h2
      cases h2
    omega

theorem tdiv8_pos {b : Int} (h : 8 ≤ b) : 0 < Int.tdiv b 8 := by
  rw [Int.tdiv_eq_ediv (by omega) (by omega)]
  omega

theorem to_long_of_fits {x : Int} (h : fits_long x) : to_long x = x := by
  obtain ⟨h1, h2⟩ := h
  unfold to_long
  omega

theorem byte_count_of_fits {k b : Int} {n : Nat} (h1 : fits_long (k * b))
    (h2 : fits_long (k * b * (n : Int))) :
    byte_count k b n = Int.tdiv (k * b * (n : Int)) 8 := by
  unfold byte_count
  rw [to_long_of_fits h1, to_long_of_fits h2]

theorem Standalone.pcmr_read_request_nonneg {reader : Standalone.pcm_reader}
    {sample_count : Int} {samples : ia_array} {r : Standalone.read_result}
    (h : Standalone.pcmr_read reader sample_count samples = some r) :
    0 ≤ byte_count sample_count reader.bits_per_sample samples.length := by
  unfold Standalone.pcmr_read at h
  simp only at h
  split at h
  · cases h
  · omega

/-! ### Handler calls and the codec -/

theorem apply_callbacks_eq_map (chain : List pcmr_callback) (buffer : List Nat) (n : Nat) :
    apply_callbacks chain buffer n
      = chain.map (fun node => { callback := node.callback, data := node.data,
                                 buffer := buffer, length := n }) := by
  induction chain with
  | nil => rfl
  | cons node next ih => simp [apply_callbacks, ih]

theorem length_int_to_char (bps be sg : Int) (v : Int) :
    (FrameList_get_int_to_char_converter bps be sg v).length = (Int.tdiv bps 8).toNat := by
  unfold FrameList_get_int_to_char_converter
  simp only
  split <;> simp

theorem length_encode (s : List Int) (bps : Int) :
    (encode s bps).length = s.length * (Int.tdiv bps 8).toNat := by
  unfold encode
  induction s with
  | nil => simp
  | cons v s ih =>
    simp only [List.map_cons, List.flatten_cons, List.length_append, List.length_cons, ih,
      length_int_to_char]
    ring

theorem map_range_getD (s : List Int) (f : Int → List Nat) :
    (List.range s.length).map (fun i => f (s.getD i 0)) = s.map f := by
  apply List.ext_getElem
  · simp
  · intro i h1 h2
    simp only [List.length_map, List.length_range] at h1
    simp [List.getD_eq_getElem?_getD, List.getElem?_eq_getElem h1]

theorem samples_to_char_aligned (data : List Nat) (s : List Int) (bps : Int)
    (h : data.length ≤ s.length * (Int.tdiv bps 8).toNat) :
    FrameList_samples_to_char data s (FrameList_get_int_to_char_converter bps 0 1) s.length bps
      = encode s bps := by
  unfold FrameList_samples_to_char encode
  simp only [map_range_getD, List.drop_eq_nil_of_le h, List.append_nil]

theorem stride_spec_zero {s : List Int} {c x : Nat} {t : List Int}
    (hs : stride_spec s 0 c x t) : t = [] := by
  have h := hs 0
  rw [if_neg (by omega), List.getElem?_eq_none_iff] at h
  exact List.length_eq_zero.mp (by omega)

theorem stride_spec_eq {s : List Int} {n c x : Nat} {t : List Int}
    (hs : stride_spec s n c x t) (hn : n = s.length) (k : Nat) :
    t[k]? = s[k * c + x]? := by
  have h := hs k
  have e : x + k * c = k * c + x := by omega
  by_cases hlt : x + k * c < n
  · have hlt2 : k * c + x < s.length := by omega
    rw [h, if_pos hlt, List.getElem?_eq_getElem hlt2, List.getD_eq_getElem?_getD, e,
      List.getElem?_eq_getElem hlt2]
    rfl
  · rw [h, if_neg hlt]
    exact (List.getElem?_eq_none (by omega)).symm

theorem stride_spec_lt_length {s : List Int} {n c x : Nat} {t : List Int}
    (hs : stride_spec s n c x t) (hn : n = s.length) (k : Nat) :
    k < t.length ↔ k * c + x < s.length := by
  have h := stride_spec_eq hs hn k
  constructor
  · intro hk
    by_contra hcon
    rw [List.getElem?_eq_getElem hk, List.getElem?_eq_none (by omega)] at h
    cases h
  · intro hk
    by_contra hcon
    rw [List.getElem?_eq_getElem hk, List.getElem?_eq_none (by omega)] at h
    cases h

/-- What the nested loop leaves in the output: every channel below `channels` is
present and is the stride of the flat sequence that starts at its index. -/
theorem split_channels_deinterleaves {channels : Int} {s : List Int} {samples out : ia_array}
    {fuel : Nat} (h : split_channels channels s s.length fuel 0 samples = some out)
    (i : Nat) (hi : (i : Int) < channels) :
    ∃ channel, out[i]? = some channel
      ∧ (∀ k, channel[k]? = s[k * channels.toNat + i]?)
      ∧ (∀ k, k < channel.length ↔ k * channels.toNat + i < s.length) := by
  obtain ⟨_, _, _, hmid⟩ := split_channels_spec _ _ _ _ _ _ _ h
  obtain ⟨t, ht, hs⟩ := hmid i (Nat.zero_le i) hi
  exact ⟨t, ht, stride_spec_eq hs rfl, stride_spec_lt_length hs rfl⟩

theorem stereo_three_frames {s c0 c1 : List Int} {a0 b0 a1 b1 a2 b2 : Int}
    (hs : s = [a0, b0, a1, b1, a2, b2])
    (h0 : ∀ k, c0[k]? = s[k * 2 + 0]?) (h1 : ∀ k, c1[k]? = s[k * 2 + 1]?) :
    c0 = [a0, a1, a2] ∧ c1 = [b0, b1, b2] := by
  subst hs
  constructor
  · apply List.ext_getElem?
    intro k
    rw [h0 k]
    rcases k with _ | _ | _ | k
    · rfl
    · rfl
    · rfl
    · rw [List.getElem?_eq_none (by simp; omega), List.getElem?_eq_none (by simp)]
  · apply List.ext_getElem?
    intro k
    rw [h1 k]
    rcases k with _ | _ | _ | k
    · rfl
    · rfl
    · rfl
    · rw [List.getElem?_eq_none (by simp; omega), List.getElem?_eq_none (by simp)]

theorem byte_count_zero (b : Int) (n : Nat) : byte_count 0 b n = 0 := by
  simp [byte_count, to_long]

theorem Py.pcmr_read_split {env : Py.PyEnv} {reader : Py.pcm_reader} {sample_count : Int}
    {samples : ia_array} {r : Py.read_result}
    (h : Py.pcmr_read env reader sample_count samples = some r) (hret : r.returnval = 1) :
    split_channels reader.channels r.buffer_samples r.buffer_samples.length
      (samples.length + 1) 0 samples = some r.samples := by
  obtain ⟨fl, _, _, hbuf, hsplit, _, _⟩ := Py.pcmr_read_success h hret
  rw [hbuf, length_set_signed]
  rw [hbuf] at hsplit
  exact hsplit

theorem Py.pcmr_read_source_reads {env : Py.PyEnv} {reader : Py.pcm_reader} {sample_count : Int}
    {samples : ia_array} {r : Py.read_result}
    (h : Py.pcmr_read env reader sample_count samples = some r) :
    r.source_reads
      = [byte_count sample_count reader.bits_per_sample samples.length] := by
  unfold Py.pcmr_read at h
  simp only at h
  repeat' split at h
  all_goals first
    | (cases h; rfl)
    | cases h

/-! ### The heap, registration and close -/

theorem malloc_wf {h : Heap} (hw : h.wf) : (malloc h).2.wf := by
  obtain ⟨hn, hb⟩ := hw
  refine ⟨?_, ?_⟩
  · simp only [malloc, List.nodup_cons]
    exact ⟨fun hmem => absurd (hb _ hmem) (by omega), hn⟩
  · intro a ha
    simp only [malloc, List.mem_cons] at ha
    simp only [malloc]
    rcases ha with rfl | ha
    · omega
    · have := hb a ha
      omega

theorem malloc_fresh {h : Heap} (hw : h.wf) : (malloc h).1 ∉ h.live := by
  intro hmem
  have := hw.2 _ hmem
  simp only [malloc] at this
  omega

theorem free_callbacks_spec :
    ∀ (chain : List pcmr_callback) (h : Heap), h.live.Nodup →
      (chain.map pcmr_callback.addr).Nodup →
      (∀ a ∈ chain.map pcmr_callback.addr, a ∈ h.live) →
      ∃ h1, free_callbacks h chain = some (h1, chain.map pcmr_callback.addr)
        ∧ h1.live.Nodup ∧ h1.next = h.next
        ∧ ∀ a, a ∈ h1.live ↔ a ∈ h.live ∧ a ∉ chain.map pcmr_callback.addr := by
  intro chain
  induction chain with
  | nil =>
    intro h hn _ _
    exact ⟨h, rfl, hn, rfl, fun a => by simp⟩
  | cons node next ih =>
    intro h hn hnd hmem
    simp only [List.map_cons, List.nodup_cons] at hnd
    have hnode : node.addr ∈ h.live := hmem _ (by simp)
    have hn1 : (h.live.erase node.addr).Nodup := hn.erase _
    obtain ⟨h1, hfree, hn2, hnext, hlive⟩ := ih { h with live := h.live.erase node.addr } hn1 hnd.2
      (by
        intro a ha
        have hne : a ≠ node.addr := fun e => hnd.1 (e ▸ ha)
        exact (List.mem_erase_of_ne hne).mpr (hmem a (by simp [ha])))
    refine ⟨h1, ?_, hn2, hnext, ?_⟩
    · simp only [free_callbacks, free, hnode, if_true, hfree, List.map_cons]
    · intro a
      rw [hlive a]
      simp only [List.map_cons, List.mem_cons, not_or]
      rw [hn.mem_erase_iff]
      tauto

theorem Standalone.register_all_spec :
    ∀ (regs : List (Nat × Nat)) (h : Heap) (reader : Standalone.pcm_reader), h.wf →
      ∃ added : List pcmr_callback,
        (Standalone.register_all h reader regs).2
            = { reader with callback := added ++ reader.callback }
        ∧ added.map (fun node => (node.callback, node.data)) = regs.reverse
        ∧ (added.map pcmr_callback.addr).Nodup
        ∧ (∀ a ∈ added.map pcmr_callback.addr, a ∉ h.live)
        ∧ (Standalone.register_all h reader regs).1.wf
        ∧ ∀ a, a ∈ (Standalone.register_all h reader regs).1.live
              ↔ a ∈ h.live ∨ a ∈ added.map pcmr_callback.addr := by
  intro regs
  induction regs with
  | nil =>
    intro h reader hw
    exact ⟨[], rfl, rfl, List.nodup_nil, by simp, hw, by simp [Standalone.register_all]⟩
  | cons reg rest ih =>
    intro h reader hw
    obtain ⟨callback, data⟩ := reg
    obtain ⟨added, hreader, hmap, hnd, hfresh, hw2, hlive⟩ :=
      ih (malloc h).2 (Standalone.pcmr_add_callback h reader callback data).2 (malloc_wf hw)
    have hnew : (malloc h).1 ∉ h.live := malloc_fresh hw
    have hl1 : ∀ a, a ∈ (malloc h).2.live ↔ a = (malloc h).1 ∨ a ∈ h.live := by
      intro a
      simp [malloc]
    refine ⟨added ++ [{ addr := (malloc h).1, callback := callback, data := data }],
      ?_, ?_, ?_, ?_, ?_, ?_⟩
    · simp only [Standalone.register_all, Standalone.pcmr_add_callback] at hreader ⊢
      rw [hreader]
      simp
    · simp [hmap]
    · rw [List.map_append, List.nodup_append]
      refine ⟨hnd, by simp, ?_⟩
      intro a ha hb
      simp only [List.map_cons, List.map_nil, List.mem_singleton] at hb
      subst hb
      exact hfresh _ ha ((hl1 _).mpr (Or.inl rfl))
    · intro a ha
      simp only [List.map_append, List.map_cons, List.map_nil, List.mem_append,
        List.mem_singleton] at ha
      rcases ha with ha | rfl
      · exact fun hmem => hfresh a ha ((hl1 a).mpr (Or.inr hmem))
      · exact hnew
    · exact hw2
    · intro a
      have := hlive a
      simp only [Standalone.register_all, Standalone.pcmr_add_callback] at this ⊢
      rw [this, hl1]
      simp only [List.map_append, List.map_cons, List.map_nil, List.mem_append,
        List.mem_singleton]
      tauto

theorem Py.py_register_all_spec :
    ∀ (regs : List (Nat × Nat)) (h : Heap) (reader : Py.pcm_reader), h.wf →
      ∃ added : List pcmr_callback,
        (Py.register_all h reader regs).2
            = { reader with callback := added ++ reader.callback }
        ∧ added.map (fun node => (node.callback, node.data)) = regs.reverse
        ∧ (added.map pcmr_callback.addr).Nodup
        ∧ (∀ a ∈ added.map pcmr_callback.addr, a ∉ h.live)
        ∧ (Py.register_all h reader regs).1.wf
        ∧ ∀ a, a ∈ (Py.register_all h reader regs).1.live
              ↔ a ∈ h.live ∨ a ∈ added.map pcmr_callback.addr := by
  intro regs
  induction regs with
  | nil =>
    intro h reader hw
    exact ⟨[], rfl, rfl, List.nodup_nil, by simp, hw, by simp [Py.register_all]⟩
  | cons reg rest ih =>
    intro h reader hw
    obtain ⟨callback, data⟩ := reg
    obtain ⟨added, hreader, hmap, hnd, hfresh, hw2, hlive⟩ :=
      ih (malloc h).2 (Py.pcmr_add_callback h reader callback data).2 (malloc_wf hw)
    have hnew : (malloc h).1 ∉ h.live := malloc_fresh hw
    have hl1 : ∀ a, a ∈ (malloc h).2.live ↔ a = (malloc h).1 ∨ a ∈ h.live := by
      intro a
      simp [malloc]
    refine ⟨added ++ [{ addr := (malloc h).1, callback := callback, data := data }],
      ?_, ?_, ?_, ?_, ?_, ?_⟩
    · simp only [Py.register_all, Py.pcmr_add_callback] at hreader ⊢
      rw [hreader]
      simp
    · simp [hmap]
    · rw [List.map_append, List.nodup_append]
      refine ⟨hnd, by simp, ?_⟩
      intro a ha hb
      simp only [List.map_cons, List.map_nil, List.mem_singleton] at hb
      subst hb
      exact hfresh _ ha ((hl1 _).mpr (Or.inl rfl))
    · intro a ha
      simp only [List.map_append, List.map_cons, List.map_nil, List.mem_append,
        List.mem_singleton] at ha
      rcases ha with ha | rfl
      · exact fun hmem => hfresh a ha ((hl1 a).mpr (Or.inr hmem))
      · exact hnew
    · exact hw2
    · intro a
      have := hlive a
      simp only [Py.register_all, Py.pcmr_add_callback] at this ⊢
      rw [this, hl1]
      simp only [List.map_append, List.map_cons, List.map_nil, List.mem_append,
        List.mem_singleton]
      tauto

theorem close_heap_spec {h0 h2 : Heap} {addr : Nat} {added : List pcmr_callback}
    (hw0 : h0.wf) (haddr : addr = (malloc h0).1)
    (hnd : (added.map pcmr_callback.addr).Nodup)
    (hfresh : ∀ a ∈ added.map pcmr_callback.addr, a ∉ (malloc h0).2.live)
    (hw2 : h2.wf)
    (hlive : ∀ a, a ∈ h2.live ↔ a ∈ (malloc h0).2.live ∨ a ∈ added.map pcmr_callback.addr) :
    ∃ h3 h4, free_callbacks h2 added = some (h3, added.map pcmr_callback.addr)
      ∧ free h3 addr = some h4
      ∧ (∀ node ∈ added, node.addr ∉ h4.live)
      ∧ addr ∉ h4.live
      ∧ ∀ a, a ∈ h4.live ↔ a ∈ h0.live := by
  have hnew : addr ∉ h0.live := haddr ▸ malloc_fresh hw0
  have hl1 : ∀ a, a ∈ (malloc h0).2.live ↔ a = addr ∨ a ∈ h0.live := by
    intro a
    simp [malloc, haddr]
  obtain ⟨h3, hfree, hn3, _, hl3⟩ := free_callbacks_spec added h2 hw2.1 hnd
    (fun a ha => (hlive a).mpr (Or.inr ha))
  have haddr3 : addr ∈ h3.live := by
    rw [hl3, hlive]
    exact ⟨Or.inl ((hl1 addr).mpr (Or.inl rfl)), fun hmem => hfresh _ hmem ((hl1 addr).mpr (Or.inl rfl))⟩
  have hl4 : ∀ a, a ∈ h3.live.erase addr ↔ a ≠ addr ∧ a ∈ h3.live := fun a => hn3.mem_erase_iff
  refine ⟨h3, { h3 with live := h3.live.erase addr }, hfree, by simp [free, haddr3], ?_, ?_, ?_⟩
  · intro node hnode hmem
    have := ((hl3 _).mp ((hl4 _).mp hmem).2).2
    exact this (List.mem_map_of_mem _ hnode)
  · intro hmem
    exact ((hl4 _).mp hmem).1 rfl
  · intro a
    show a ∈ h3.live.erase addr ↔ a ∈ h0.live
    rw [hl4, hl3, hlive, hl1]
    constructor
    · rintro ⟨hne, (h | h) | h, hnot⟩
      · exact absurd h hne
      · exact h
      · exact absurd h hnot
    · intro h
      refine ⟨fun e => hnew (e ▸ h), Or.inl (Or.inr h), fun hmem => hfresh a hmem ((hl1 a).mpr (Or.inr h))⟩

theorem Py.pcmr_open_some {h h1 : Heap} {src : Py.PyPCMReader} {reader : Py.pcm_reader}
    (hopen : Py.pcmr_open h src = (h1, some reader)) :
    h1 = (malloc h).2 ∧ reader.addr = (malloc h).1 ∧ reader.callback = []
    ∧ (∃ a, src.sample_rate = some a ∧ a.as_long = some reader.sample_rate)
    ∧ (∃ a, src.bits_per_sample = some a ∧ a.as_long = some reader.bits_per_sample)
    ∧ (∃ a, src.channels = some a ∧ a.as_long = some reader.channels)
    ∧ src.read = some reader.read ∧ reader.read.callable = true
    ∧ src.close = some reader.close ∧ reader.close.callable = true := by
  obtain ⟨sr, bps, ch, rd, cl⟩ := src
  unfold Py.pcmr_open at hopen
  simp only at hopen
  cases sr with
  | none => simp at hopen
  | some sr =>
    cases hsr : sr.as_long with
    | none => simp [Py.PyInt_AsLong, hsr] at hopen
    | some vsr =>
      cases bps with
      | none => simp [Py.PyInt_AsLong, hsr] at hopen
      | some bps =>
        cases hbps : bps.as_long with
        | none => simp [Py.PyInt_AsLong, hsr, hbps] at hopen
        | some vbps =>
          cases ch with
          | none => simp [Py.PyInt_AsLong, hsr, hbps] at hopen
          | some ch =>
            cases hch : ch.as_long with
            | none => simp [Py.PyInt_AsLong, hsr, hbps, hch] at hopen
            | some vch =>
              cases rd with
              | none => simp [Py.PyInt_AsLong, hsr, hbps, hch] at hopen
              | some rd =>
                cases hrd : rd.callable with
                | false => simp [Py.PyInt_AsLong, hsr, hbps, hch, hrd] at hopen
                | true =>
                  cases cl with
                  | none => simp [Py.PyInt_AsLong, hsr, hbps, hch, hrd] at hopen
                  | some cl =>
                    cases hcl : cl.callable with
                    | false => simp [Py.PyInt_AsLong, hsr, hbps, hch, hrd, hcl] at hopen
                    | true =>
                      simp only [Py.PyInt_AsLong, hsr, hbps, hch, hrd, hcl] at hopen
                      simp at hopen
                      obtain ⟨h1eq, hreader⟩ := hopen
                      subst hreader
                      subst h1eq
                      simp [hsr, hbps, hch, hrd, hcl]

theorem Standalone.register_all_callbacks :
    ∀ (regs : List (Nat × Nat)) (h : Heap) (reader : Standalone.pcm_reader),
      (Standalone.register_all h reader regs).2.callback.map
          (fun node => (node.callback, node.data))
        = regs.reverse ++ reader.callback.map (fun node => (node.callback, node.data)) := by
  intro regs
  induction regs with
  | nil => intro h reader; rfl
  | cons reg rest ih =>
    intro h reader
    obtain ⟨callback, data⟩ := reg
    simp only [Standalone.register_all, ih, Standalone.pcmr_add_callback, List.map_cons,
      List.reverse_cons, List.append_assoc, List.singleton_append]

theorem Py.py_register_all_callbacks :
    ∀ (regs : List (Nat × Nat)) (h : Heap) (reader : Py.pcm_reader),
      (Py.register_all h reader regs).2.callback.map
          (fun node => (node.callback, node.data))
        = regs.reverse ++ reader.callback.map (fun node => (node.callback, node.data)) := by
  intro regs
  induction regs with
  | nil => intro h reader; rfl
  | cons reg rest ih =>
    intro h reader
    obtain ⟨callback, data⟩ := reg
    simp only [Py.register_all, ih, Py.pcmr_add_callback, List.map_cons,
      List.reverse_cons, List.append_assoc, List.singleton_append]

theorem apply_callbacks_of_regs (chain : List pcmr_callback) (regs : List (Nat × Nat))
    (buffer : List Nat) (n : Nat)
    (h : chain.map (fun node => (node.callback, node.data)) = regs) :
    apply_callbacks chain buffer n
      = regs.map (fun p => { callback := p.1, data := p.2, buffer := buffer, length := n }) := by
  subst h
  rw [apply_callbacks_eq_map, List.map_map]
  rfl

/-! ## The claims -/

/-- C1: in both variants, after a successful `pcmr_read` of a reader with at least one
channel, every channel `i` below the channel count is present in the output and is
exactly the stride of the decoded flat sequence that starts at `i`: its element at
position `k` is the sample at flat index `k * channels + i`, and it has an element at
position `k` exactly when that index is inside the sequence (so nothing is missing and
nothing is left over from before the call).  In particular, when the decoded sequence of
a 2-channel stream is `[L0, R0, L1, R1, L2, R2]`, channel 0 is `[L0, L1, L2]` and
channel 1 is `[R0, R1, R2]`. -/
theorem pcmr_read_deinterleaves :
    (∀ (reader : Standalone.pcm_reader) (sample_count : Int) (samples : ia_array)
        (r : Standalone.read_result),
        1 ≤ reader.channels →
        Standalone.pcmr_read reader sample_count samples = some r → r.returnval = 1 →
        (∀ i : Nat, (i : Int) < reader.channels →
          ∃ channel, r.samples[i]? = some channel
            ∧ (∀ k, channel[k]? = r.buffer_samples[k * reader.channels.toNat + i]?)
            ∧ (∀ k, k < channel.length
                ↔ k * reader.channels.toNat + i < r.buffer_samples.length))
        ∧ (∀ L0 R0 L1 R1 L2 R2 : Int, reader.channels = 2 →
            r.buffer_samples = [L0, R0, L1, R1, L2, R2] →
            r.samples[0]? = some [L0, L1, L2] ∧ r.samples[1]? = some [R0, R1, R2]))
    ∧ (∀ (env : Py.PyEnv) (reader : Py.pcm_reader) (sample_count : Int) (samples : ia_array)
        (r : Py.read_result),
        1 ≤ reader.channels →
        Py.pcmr_read env reader sample_count samples = some r → r.returnval = 1 →
        (∀ i : Nat, (i : Int) < reader.channels →
          ∃ channel, r.samples[i]? = some channel
            ∧ (∀ k, channel[k]? = r.buffer_samples[k * reader.channels.toNat + i]?)
            ∧ (∀ k, k < channel.length
                ↔ k * reader.channels.toNat + i < r.buffer_samples.length))
        ∧ (∀ L0 R0 L1 R1 L2 R2 : Int, reader.channels = 2 →
            r.buffer_samples = [L0, R0, L1, R1, L2, R2] →
            r.samples[0]? = some [L0, L1, L2] ∧ r.samples[1]? = some [R0, R1, R2])) := by
  constructor
  · intro reader sample_count samples r _ h _
    obtain ⟨_, _, _, _, hsplit, _⟩ := Standalone.pcmr_read_fields h
    refine ⟨fun i hi => split_channels_deinterleaves hsplit i hi, ?_⟩
    intro L0 R0 L1 R1 L2 R2 hc hs
    obtain ⟨c0, hc0, he0, _⟩ := split_channels_deinterleaves hsplit 0 (by omega)
    obtain ⟨c1, hc1, he1, _⟩ := split_channels_deinterleaves hsplit 1 (by omega)
    have h2 : reader.channels.toNat = 2 := by omega
    rw [h2] at he0 he1
    obtain ⟨e0, e1⟩ := stereo_three_frames hs he0 he1
    rw [hc0, hc1, e0, e1]
    exact ⟨rfl, rfl⟩
  · intro env reader sample_count samples r _ h hret
    have hsplit := Py.pcmr_read_split h hret
    refine ⟨fun i hi => split_channels_deinterleaves hsplit i hi, ?_⟩
    intro L0 R0 L1 R1 L2 R2 hc hs
    obtain ⟨c0, hc0, he0, _⟩ := split_channels_deinterleaves hsplit 0 (by omega)
    obtain ⟨c1, hc1, he1, _⟩ := split_channels_deinterleaves hsplit 1 (by omega)
    have h2 : reader.channels.toNat = 2 := by omega
    rw [h2] at he0 he1
    obtain ⟨e0, e1⟩ := stereo_three_frames hs he0 he1
    rw [hc0, hc1, e0, e1]
    exact ⟨rfl, rfl⟩

/-- Witness for C1: the stereo frames `(1, 2), (3, 4), (5, 6)` are split into
`[1, 3, 5]` and `[2, 4, 6]`, in both variants, from output arrays that held other
samples before. -/
theorem pcmr_read_deinterleaves_witness :
    (Standalone.pcmr_read ex_reader 3 [[9], [8, 7]] = some ex_result
      ∧ ex_result.samples[0]? = some [1, 3, 5] ∧ ex_result.samples[1]? = some [2, 4, 6])
    ∧ (Py.pcmr_read ex_env ex_py_reader 3 [[9], [8, 7]] = some ex_py_result
      ∧ ex_py_result.samples[0]? = some [1, 3, 5]
      ∧ ex_py_result.samples[1]? = some [2, 4, 6]) :=
  ⟨⟨rfl, (pcmr_read_deinterleaves.1 ex_reader 3 [[9], [8, 7]] ex_result (by decide) rfl rfl).2
      1 2 3 4 5 6 rfl rfl⟩,
   ⟨rfl, (pcmr_read_deinterleaves.2 ex_env ex_py_reader 3 [[9], [8, 7]] ex_py_result
      (by decide) rfl rfl).2 1 2 3 4 5 6 rfl rfl⟩⟩

/-- C2: in the raw-stream variant, when the source supplies exactly `m` whole frames of
bytes for the request of `sample_count` frames, `pcmr_read` returns 1 and every one of
the `channels` output arrays has exactly `m` elements, whatever `samples` held before.
The read is defined when the byte count the code computes in `long` arithmetic is not
negative, `bits_per_sample` is at least 8 and `samples` has an entry for every
channel. -/
theorem pcmr_read_frame_count (reader : Standalone.pcm_reader) (sample_count : Int)
    (samples : ia_array) (m : Nat)
    (hcount : 0 ≤ byte_count sample_count reader.bits_per_sample samples.length)
    (hbps : 8 ≤ reader.bits_per_sample)
    (hsize : reader.channels ≤ (samples.length : Int))
    (hm : (Standalone.supplied reader sample_count samples).length
        = m * reader.channels.toNat * (Int.tdiv reader.bits_per_sample 8).toNat) :
    ∃ r, Standalone.pcmr_read reader sample_count samples = some r
      ∧ r.returnval = 1
      ∧ ∀ i : Nat, (i : Int) < reader.channels →
          ∃ channel, r.samples[i]? = some channel ∧ channel.length = m := by
  have hw := tdiv8_pos hbps
  obtain ⟨r, hr⟩ := Standalone.pcmr_read_total reader sample_count samples hcount hw hsize
  obtain ⟨hret, _, _, hbuf, hsplit, _⟩ := Standalone.pcmr_read_fields hr
  refine ⟨r, hr, hret, ?_⟩
  intro i hi
  have hlen : r.buffer_samples.length = m * reader.channels.toNat := by
    rw [hbuf, length_FrameList_char_to_samples, hm]
    exact Nat.mul_div_cancel _ (by omega)
  rw [hlen] at hsplit
  obtain ⟨_, _, _, hmid⟩ := split_channels_spec _ _ _ _ _ _ _ hsplit
  obtain ⟨t, ht, hs⟩ := hmid i (Nat.zero_le i) hi
  exact ⟨t, ht, stride_spec_length hs (by omega)⟩

/-- Witness for C2: asked for 3 frames, a stream that ends after 2 whole frames gives
2 elements per channel; and a frame count of `2^61`, whose byte count wraps to 0 in
`long` arithmetic, gives 0 elements per channel. -/
theorem pcmr_read_frame_count_witness :
    (∃ r, Standalone.pcmr_read ex_reader_short 3 [[9], [8, 7]] = some r
      ∧ r.returnval = 1
      ∧ ∀ i : Nat, (i : Int) < ex_reader_short.channels →
          ∃ channel, r.samples[i]? = some channel ∧ channel.length = 2)
    ∧ (∃ r, Standalone.pcmr_read ex_reader (2 ^ 61) [[9], [8, 7]] = some r
      ∧ r.returnval = 1
      ∧ ∀ i : Nat, (i : Int) < ex_reader.channels →
          ∃ channel, r.samples[i]? = some channel ∧ channel.length = 0) :=
  ⟨pcmr_read_frame_count ex_reader_short 3 [[9], [8, 7]] 2 (by decide) (by decide) (by decide)
    (by decide),
   pcmr_read_frame_count ex_reader (2 ^ 61) [[9], [8, 7]] 0 (by decide) (by decide) (by decide)
    (by decide)⟩

/-- C3 (as stated, refuted): a five-byte read on a 16-bit stereo reader (frame size 4)
returns 1, not the error result. -/
theorem pcmr_read_misaligned_not_rejected :
    ¬ (∀ (reader : Standalone.pcm_reader) (sample_count : Int) (samples : ia_array)
        (r : Standalone.read_result),
        ¬ ((Int.tdiv reader.bits_per_sample 8).toNat * reader.channels.toNat
            ∣ (Standalone.supplied reader sample_count samples).length) →
        Standalone.pcmr_read reader sample_count samples = some r → r.returnval = 0) := by
  intro h
  have h1 := h ex_reader_misaligned 3 [[], []]
    { returnval := 1, samples := [[1], [2]], read := { data := [], fclose_result := 0 },
      source_reads := [12], buffer_samples := [1, 2], calls := [] }
    (by decide) (by decide)
  exact absurd h1 (by decide)

/-- C3 (amended): in the raw-stream variant, a read in which the source returns a byte
count that is not a multiple of the frame size still returns 1.  It decodes the whole
samples among the bytes, `bytes / (bits_per_sample / 8)` of them, and splits them over
the channels: channel `i` is exactly the stride of the decoded sequence that starts at
`i`.  What the misalignment leaves behind is bytes after the last whole sample, or a
last frame that does not reach every channel. -/
theorem pcmr_read_misaligned_succeeds (reader : Standalone.pcm_reader) (sample_count : Int)
    (samples : ia_array)
    (hcount : 0 ≤ byte_count sample_count reader.bits_per_sample samples.length)
    (hbps : 8 ≤ reader.bits_per_sample)
    (hsize : reader.channels ≤ (samples.length : Int))
    (hmis : ¬ ((Int.tdiv reader.bits_per_sample 8).toNat * reader.channels.toNat
            ∣ (Standalone.supplied reader sample_count samples).length)) :
    ∃ r, Standalone.pcmr_read reader sample_count samples = some r
      ∧ r.returnval = 1
      ∧ r.buffer_samples.length = (Standalone.supplied reader sample_count samples).length
          / (Int.tdiv reader.bits_per_sample 8).toNat
      ∧ (∀ i : Nat, (i : Int) < reader.channels →
          ∃ channel, r.samples[i]? = some channel
            ∧ (∀ k, channel[k]? = r.buffer_samples[k * reader.channels.toNat + i]?)
            ∧ (∀ k, k < channel.length
                ↔ k * reader.channels.toNat + i < r.buffer_samples.length))
      ∧ (r.buffer_samples.length * (Int.tdiv reader.bits_per_sample 8).toNat
            < (Standalone.supplied reader sample_count samples).length
          ∨ ¬ (reader.channels.toNat ∣ r.buffer_samples.length)) := by
  have hw := tdiv8_pos hbps
  obtain ⟨r, hr⟩ := Standalone.pcmr_read_total reader sample_count samples hcount hw hsize
  obtain ⟨hret, _, _, hbuf, hsplit, _⟩ := Standalone.pcmr_read_fields hr
  have hlen : r.buffer_samples.length = (Standalone.supplied reader sample_count samples).length
      / (Int.tdiv reader.bits_per_sample 8).toNat := by
    rw [hbuf, length_FrameList_char_to_samples]
  refine ⟨r, hr, hret, hlen, fun i hi => split_channels_deinterleaves hsplit i hi, ?_⟩
  by_contra hcon
  rw [not_or, not_not, not_lt] at hcon
  obtain ⟨hle, c, hc⟩ := hcon
  have hmul := Nat.div_mul_le_self (Standalone.supplied reader sample_count samples).length
    (Int.tdiv reader.bits_per_sample 8).toNat
  rw [← hlen] at hmul
  apply hmis
  refine ⟨c, ?_⟩
  have e : (Standalone.supplied reader sample_count samples).length
      = r.buffer_samples.length * (Int.tdiv reader.bits_per_sample 8).toNat :=
    Nat.le_antisymm hle hmul
  rw [e, hc]
  ring

/-- Witness for C3 (amended): the five-byte read. -/
theorem pcmr_read_misaligned_succeeds_witness :
    ∃ r, Standalone.pcmr_read ex_reader_misaligned 3 [[], []] = some r
      ∧ r.returnval = 1
      ∧ r.buffer_samples.length = (Standalone.supplied ex_reader_misaligned 3 [[], []]).length
          / (Int.tdiv ex_reader_misaligned.bits_per_sample 8).toNat
      ∧ (∀ i : Nat, (i : Int) < ex_reader_misaligned.channels →
          ∃ channel, r.samples[i]? = some channel
            ∧ (∀ k, channel[k]?
                = r.buffer_samples[k * ex_reader_misaligned.channels.toNat + i]?)
            ∧ (∀ k, k < channel.length
                ↔ k * ex_reader_misaligned.channels.toNat + i < r.buffer_samples.length))
      ∧ (r.buffer_samples.length * (Int.tdiv ex_reader_misaligned.bits_per_sample 8).toNat
            < (Standalone.supplied ex_reader_misaligned 3 [[], []]).length
          ∨ ¬ (ex_reader_misaligned.channels.toNat ∣ r.buffer_samples.length)) :=
  pcmr_read_misaligned_succeeds ex_reader_misaligned 3 [[], []] (by decide) (by decide)
    (by decide) (by decide)

/-- C4: after the registrations `regs` (first to last) on a freshly opened reader, one
successful `pcmr_read` invokes the handlers exactly once each, last registered first,
each with its own context and all with one and the same buffer and length. -/
theorem pcmr_read_callback_order :
    (∀ (h0 : Heap) (file : Standalone.FILE) (sample_rate channels bits_per_sample
        big_endian is_signed : Int) (regs : List (Nat × Nat)) (h2 : Heap)
        (reader : Standalone.pcm_reader) (sample_count : Int) (samples : ia_array)
        (r : Standalone.read_result),
        Standalone.register_all
            (Standalone.pcmr_open h0 file sample_rate channels bits_per_sample
              big_endian is_signed).1
            (Standalone.pcmr_open h0 file sample_rate channels bits_per_sample
              big_endian is_signed).2 regs = (h2, reader) →
        Standalone.pcmr_read reader sample_count samples = some r →
        ∃ buffer length, r.calls = regs.reverse.map (fun p =>
            { callback := p.1, data := p.2, buffer := buffer, length := length }))
    ∧ (∀ (env : Py.PyEnv) (h0 h1 : Heap) (pcmreader : Py.PyPCMReader)
        (opened : Py.pcm_reader) (regs : List (Nat × Nat)) (h2 : Heap)
        (reader : Py.pcm_reader) (sample_count : Int) (samples : ia_array)
        (r : Py.read_result),
        Py.pcmr_open h0 pcmreader = (h1, some opened) →
        Py.register_all h1 opened regs = (h2, reader) →
        Py.pcmr_read env reader sample_count samples = some r → r.returnval = 1 →
        ∃ buffer length, r.calls = regs.reverse.map (fun p =>
            { callback := p.1, data := p.2, buffer := buffer, length := length })) := by
  constructor
  · intro h0 file sample_rate channels bits_per_sample big_endian is_signed regs h2 reader
      sample_count samples r hreg hread
    obtain ⟨_, _, _, _, _, hcalls⟩ := Standalone.pcmr_read_fields hread
    have hchain := Standalone.register_all_callbacks regs
      (Standalone.pcmr_open h0 file sample_rate channels bits_per_sample big_endian is_signed).1
      (Standalone.pcmr_open h0 file sample_rate channels bits_per_sample big_endian is_signed).2
    rw [hreg] at hchain
    simp only [Standalone.pcmr_open, List.map_nil, List.append_nil] at hchain
    exact ⟨_, _, hcalls.trans (apply_callbacks_of_regs _ _ _ _ hchain)⟩
  · intro env h0 h1 pcmreader opened regs h2 reader sample_count samples r hopen hreg hread hret
    obtain ⟨_, _, hempty, _⟩ := Py.pcmr_open_some hopen
    obtain ⟨fl, buffer, _, _, _, _, hcalls⟩ := Py.pcmr_read_success hread hret
    have hchain := Py.py_register_all_callbacks regs h1 opened
    rw [hreg, hempty] at hchain
    simp only [List.map_nil, List.append_nil] at hchain
    exact ⟨_, _, hcalls.trans (apply_callbacks_of_regs _ _ _ _ hchain)⟩

/-- Witness for C4: handler 10 registered before handler 20; handler 20 is called
first, in both variants. -/
theorem pcmr_read_callback_order_witness :
    (Standalone.pcmr_read ex_reader_two_callbacks 3 [[], []] = some ex_result_two_callbacks
      ∧ ∃ buffer length, ex_result_two_callbacks.calls
          = [((10 : Nat), (100 : Nat)), (20, 200)].reverse.map (fun p =>
              { callback := p.1, data := p.2, buffer := buffer, length := length }))
    ∧ (Py.pcmr_read ex_env ex_py_reader_two_callbacks 3 [[], []] = some ex_py_result_two_callbacks
      ∧ ∃ buffer length, ex_py_result_two_callbacks.calls
          = [((10 : Nat), (100 : Nat)), (20, 200)].reverse.map (fun p =>
              { callback := p.1, data := p.2, buffer := buffer, length := length })) :=
  ⟨⟨rfl, pcmr_read_callback_order.1 { live := [], next := 0 } ex_file 44100 2 16 0 1
      [(10, 100), (20, 200)] { live := [2, 1, 0], next := 3 } ex_reader_two_callbacks 3 [[], []]
      ex_result_two_callbacks rfl rfl⟩,
   ⟨rfl, pcmr_read_callback_order.2 ex_env { live := [], next := 0 } { live := [0], next := 1 }
      ex_pcmreader ex_py_reader [(10, 100), (20, 200)] { live := [2, 1, 0], next := 3 }
      ex_py_reader_two_callbacks 3 [[], []] ex_py_result_two_callbacks rfl rfl rfl rfl⟩⟩

/-- C5 (as stated, refuted): a read of 0 frames on a reader with one registered handler
issues a read (of 0 bytes) to the source and invokes the handler. -/
theorem pcmr_read_zero_not_silent :
    ¬ (∀ (reader : Standalone.pcm_reader) (samples : ia_array) (r : Standalone.read_result),
        Standalone.pcmr_read reader 0 samples = some r →
          (∀ i : Nat, (i : Int) < reader.channels → r.samples[i]? = some [])
          ∧ r.source_reads = [] ∧ r.calls = []) := by
  intro h
  have h1 := h ex_reader_one_callback [[], []]
    { returnval := 1, samples := [[], []], read := ex_file,
      source_reads := [0], buffer_samples := [],
      calls := [{ callback := 7, data := 70, buffer := [], length := 0 }] } rfl
  exact absurd h1.2.2 (by decide)

/-- C5 (amended): a read of 0 frames asks the source for 0 bytes (the read is still
issued); in the raw-stream variant it returns 1, consumes nothing, leaves every one of
the `channels` output arrays empty and invokes every registered handler once, with an
empty buffer and length 0; in the managed-object variant a successful read invokes
every registered handler once. -/
theorem pcmr_read_zero_frames :
    (∀ (reader : Standalone.pcm_reader) (samples : ia_array),
        8 ≤ reader.bits_per_sample → reader.channels ≤ (samples.length : Int) →
        ∃ r, Standalone.pcmr_read reader 0 samples = some r
          ∧ r.returnval = 1
          ∧ r.source_reads = [0]
          ∧ r.read = reader.read
          ∧ (∀ i : Nat, (i : Int) < reader.channels → r.samples[i]? = some [])
          ∧ r.calls = reader.callback.map (fun node =>
              { callback := node.callback, data := node.data, buffer := [], length := 0 }))
    ∧ (∀ (env : Py.PyEnv) (reader : Py.pcm_reader) (samples : ia_array) (r : Py.read_result),
        Py.pcmr_read env reader 0 samples = some r →
          r.source_reads = [0]
          ∧ (r.returnval = 1 → r.calls.length = reader.callback.length)) := by
  constructor
  · intro reader samples hbps hsize
    obtain ⟨r, hr⟩ := Standalone.pcmr_read_total reader 0 samples
      (by rw [byte_count_zero]) (tdiv8_pos hbps) hsize
    obtain ⟨hret, hreads, hfile, hbuf, hsplit, hcalls⟩ := Standalone.pcmr_read_fields hr
    have hsup : Standalone.supplied reader 0 samples = [] := by
      simp [Standalone.supplied, Standalone.fread, byte_count_zero]
    have hb : r.buffer_samples = [] := by
      rw [hbuf, hsup]
      simp [FrameList_char_to_samples]
    refine ⟨r, hr, hret, ?_, ?_, ?_, ?_⟩
    · rw [hreads, byte_count_zero]; rfl
    · rw [hfile, byte_count_zero]; simp [Standalone.fread]
    · intro i hi
      rw [hb] at hsplit
      obtain ⟨_, _, _, hmid⟩ := split_channels_spec _ _ _ _ _ _ _ hsplit
      obtain ⟨t, ht, hs⟩ := hmid i (Nat.zero_le i) hi
      rw [ht, stride_spec_zero hs]
    · rw [hcalls, hb, hsup, apply_callbacks_eq_map]
      simp [FrameList_samples_to_char]
  · intro env reader samples r h
    refine ⟨by rw [Py.pcmr_read_source_reads h, byte_count_zero], ?_⟩
    intro hret
    obtain ⟨fl, buffer, _, _, _, _, hcalls⟩ := Py.pcmr_read_success h hret
    rw [hcalls, apply_callbacks_eq_map]
    simp

/-- Witness for C5 (amended): a read of 0 frames with one handler registered. -/
theorem pcmr_read_zero_frames_witness :
    (∃ r, Standalone.pcmr_read ex_reader_one_callback 0 [[9], [8, 7]] = some r
      ∧ r.returnval = 1
      ∧ r.source_reads = [0]
      ∧ r.read = ex_reader_one_callback.read
      ∧ (∀ i : Nat, (i : Int) < ex_reader_one_callback.channels → r.samples[i]? = some [])
      ∧ r.calls = ex_reader_one_callback.callback.map (fun node =>
          { callback := node.callback, data := node.data, buffer := [], length := 0 }))
    ∧ (Py.pcmr_read ex_env ex_py_reader_two_callbacks 0 [[], []]
          = some ex_py_result_zero
      ∧ ex_py_result_zero.source_reads = [0]
      ∧ (ex_py_result_zero.returnval = 1 →
          ex_py_result_zero.calls.length = ex_py_reader_two_callbacks.callback.length)) :=
  ⟨pcmr_read_zero_frames.1 ex_reader_one_callback [[9], [8, 7]] (by decide) (by decide),
   rfl, pcmr_read_zero_frames.2 ex_env ex_py_reader_two_callbacks [[], []] ex_py_result_zero rfl⟩

/-- C6 (as stated, refuted): a 16-bit, 2-channel reader asked for 4 frames into an
output array of 3 channels requests 24 bytes, not `4 * 16 * 2 / 8 = 16`. -/
theorem pcmr_read_request_not_reader_channels :
    ¬ (∀ (reader : Standalone.pcm_reader) (sample_count : Int) (samples : ia_array)
        (r : Standalone.read_result),
        Standalone.pcmr_read reader sample_count samples = some r →
          r.source_reads
            = [(Int.tdiv (sample_count * reader.bits_per_sample * reader.channels) 8).toNat]) := by
  intro h
  have h1 := h ex_reader 4 [[], [], []]
    { returnval := 1, samples := [[1, 3, 5], [2, 4, 6], []],
      read := { data := [], fclose_result := 0 },
      source_reads := [24], buffer_samples := [1, 2, 3, 4, 5, 6], calls := [] } rfl
  exact absurd h1 (by decide)

/-- C6 (amended): the byte count `pcmr_read` requests from the source is the value of
`sample_count * bits_per_sample * samples->size / 8` in `long` arithmetic, with the
size of the output array passed in; the raw-stream read is undefined when that value is
negative (as a `size_t` it is a size `malloc` refuses).  When neither product overflows
a `long` this is the integer
`sample_count * bits_per_sample * samples->size / 8`, and it is
`sample_count * bits_per_sample * channels / 8` when, in addition, the output array has
exactly `channels` entries. -/
theorem pcmr_read_request :
    (∀ (reader : Standalone.pcm_reader) (sample_count : Int) (samples : ia_array)
        (r : Standalone.read_result),
        Standalone.pcmr_read reader sample_count samples = some r →
          0 ≤ byte_count sample_count reader.bits_per_sample samples.length
          ∧ r.source_reads
              = [(byte_count sample_count reader.bits_per_sample samples.length).toNat]
          ∧ (fits_long (sample_count * reader.bits_per_sample) →
              fits_long (sample_count * reader.bits_per_sample * (samples.length : Int)) →
              r.source_reads = [(Int.tdiv
                  (sample_count * reader.bits_per_sample * (samples.length : Int)) 8).toNat]
              ∧ ((samples.length : Int) = reader.channels →
                  r.source_reads = [(Int.tdiv
                    (sample_count * reader.bits_per_sample * reader.channels) 8).toNat])))
    ∧ (∀ (env : Py.PyEnv) (reader : Py.pcm_reader) (sample_count : Int) (samples : ia_array)
        (r : Py.read_result),
        Py.pcmr_read env reader sample_count samples = some r →
          r.source_reads = [byte_count sample_count reader.bits_per_sample samples.length]
          ∧ (fits_long (sample_count * reader.bits_per_sample) →
              fits_long (sample_count * reader.bits_per_sample * (samples.length : Int)) →
              r.source_reads = [Int.tdiv
                  (sample_count * reader.bits_per_sample * (samples.length : Int)) 8]
              ∧ ((samples.length : Int) = reader.channels →
                  r.source_reads = [Int.tdiv
                    (sample_count * reader.bits_per_sample * reader.channels) 8])))
    ∧ (∀ (reader : Standalone.pcm_reader) (sample_count : Int) (samples : ia_array),
        byte_count sample_count reader.bits_per_sample samples.length < 0 →
          Standalone.pcmr_read reader sample_count samples = none) := by
  refine ⟨?_, ?_, ?_⟩
  · intro reader sample_count samples r h
    obtain ⟨_, hreads, _⟩ := Standalone.pcmr_read_fields h
    refine ⟨Standalone.pcmr_read_request_nonneg h, hreads, ?_⟩
    intro h1 h2
    have e := byte_count_of_fits h1 h2
    exact ⟨by rw [hreads, e], fun heq => by rw [hreads, e, heq]⟩
  · intro env reader sample_count samples r h
    have hreads := Py.pcmr_read_source_reads h
    refine ⟨hreads, ?_⟩
    intro h1 h2
    have e := byte_count_of_fits h1 h2
    exact ⟨by rw [hreads, e], fun heq => by rw [hreads, e, heq]⟩
  · intro reader sample_count samples hneg
    unfold Standalone.pcmr_read
    simp only [hneg, if_true]

/-- Witness for C6 (amended): 4 frames into three output channels ask for 24 bytes;
`2^61` frames into two output channels ask for 0 bytes, the product having wrapped;
-3 frames ask the Python source for -12 bytes and leave the raw-stream read
undefined. -/
theorem pcmr_read_request_witness :
    (Standalone.pcmr_read ex_reader 4 [[], [], []] = some ex_result_wide
      ∧ ex_result_wide.source_reads = [(Int.tdiv (4 * 16 * 3) 8).toNat])
    ∧ (Standalone.pcmr_read ex_reader (2 ^ 61) [[], []] = some ex_result_wrapped
      ∧ ex_result_wrapped.source_reads = [(byte_count (2 ^ 61) 16 2).toNat]
      ∧ byte_count (2 ^ 61) 16 2 = 0)
    ∧ (Py.pcmr_read ex_env ex_py_reader 3 [[9], [8, 7]] = some ex_py_result
      ∧ ex_py_result.source_reads = [Int.tdiv (3 * 16 * 2) 8])
    ∧ (Py.pcmr_read ex_env ex_py_reader (-3) [[9], [8, 7]] = some ex_py_result_negative
      ∧ ex_py_result_negative.source_reads = [byte_count (-3) 16 2]
      ∧ byte_count (-3) 16 2 = -12)
    ∧ Standalone.pcmr_read ex_reader (-3) [[9], [8, 7]] = none :=
  ⟨⟨rfl, ((pcmr_read_request.1 ex_reader 4 [[], [], []] ex_result_wide rfl).2.2
      ⟨by decide, by decide⟩ ⟨by decide, by decide⟩).1⟩,
   ⟨by decide,
    (pcmr_read_request.1 ex_reader (2 ^ 61) [[], []] ex_result_wrapped (by decide)).2.1,
    by decide⟩,
   ⟨rfl, ((pcmr_read_request.2.1 ex_env ex_py_reader 3 [[9], [8, 7]] ex_py_result rfl).2
      ⟨by decide, by decide⟩ ⟨by decide, by decide⟩).1⟩,
   ⟨by decide,
    (pcmr_read_request.2.1 ex_env ex_py_reader (-3) [[9], [8, 7]] ex_py_result_negative
      (by decide)).1,
    by decide⟩,
   pcmr_read_request.2.2 ex_reader (-3) [[9], [8, 7]] (by decide)⟩

/-- C7 (evaluation at the failing input): the raw-stream `pcmr_close` of a reader whose
`fclose` fails returns 1, while the managed-object `pcmr_close` of a reader whose
`close` raises returns 0. -/
theorem pcmr_close_standalone_swallows_failure :
    Standalone.pcmr_close { live := [2, 1, 0], next := 3 } ex_reader_bad_close
      = some { returnval := 1, heap := { live := [], next := 3 }, freed := [2, 1, 0],
               source_close_failed := true }
    ∧ Py.pcmr_close { live := [2, 1, 0], next := 3 } ex_py_reader_two_callbacks
      = some { returnval := 0, heap := { live := [], next := 3 }, freed := [2, 1, 0],
               source_close_failed := true } := by
  decide

/-- C8: `pcmr_close` of a reader with the `n` registered handlers `regs` frees each of
the `n` callback nodes exactly once (the nodes are `n` distinct blocks and the list of
freed addresses is the chain followed by the reader record), and afterwards no node is
allocated any more: the heap holds what it held before `pcmr_open`.  This is so in both
variants, whether the close of the source succeeds or fails. -/
theorem pcmr_close_frees_callbacks :
    (∀ (h0 : Heap) (file : Standalone.FILE) (sample_rate channels bits_per_sample
        big_endian is_signed : Int) (regs : List (Nat × Nat)) (h2 : Heap)
        (reader : Standalone.pcm_reader),
        h0.wf →
        Standalone.register_all
            (Standalone.pcmr_open h0 file sample_rate channels bits_per_sample
              big_endian is_signed).1
            (Standalone.pcmr_open h0 file sample_rate channels bits_per_sample
              big_endian is_signed).2 regs = (h2, reader) →
        ∃ r, Standalone.pcmr_close h2 reader = some r
          ∧ reader.callback.length = regs.length
          ∧ (reader.callback.map pcmr_callback.addr).Nodup
          ∧ r.freed = reader.callback.map pcmr_callback.addr ++ [reader.addr]
          ∧ (∀ node ∈ reader.callback, node.addr ∉ r.heap.live)
          ∧ (∀ a, a ∈ r.heap.live ↔ a ∈ h0.live)
          ∧ r.source_close_failed = decide (file.fclose_result ≠ 0))
    ∧ (∀ (h0 h1 : Heap) (pcmreader : Py.PyPCMReader) (opened : Py.pcm_reader)
        (regs : List (Nat × Nat)) (h2 : Heap) (reader : Py.pcm_reader),
        h0.wf →
        Py.pcmr_open h0 pcmreader = (h1, some opened) →
        Py.register_all h1 opened regs = (h2, reader) →
        ∃ r, Py.pcmr_close h2 reader = some r
          ∧ reader.callback.length = regs.length
          ∧ (reader.callback.map pcmr_callback.addr).Nodup
          ∧ r.freed = reader.callback.map pcmr_callback.addr ++ [reader.addr]
          ∧ (∀ node ∈ reader.callback, node.addr ∉ r.heap.live)
          ∧ (∀ a, a ∈ r.heap.live ↔ a ∈ h0.live)
          ∧ r.source_close_failed = (opened.close.call none).isNone) := by
  constructor
  · intro h0 file sample_rate channels bits_per_sample big_endian is_signed regs h2 reader
      hw0 hreg
    obtain ⟨added, hreader, hmap, hnd, hfresh, hw2, hlive⟩ := Standalone.register_all_spec regs
      (Standalone.pcmr_open h0 file sample_rate channels bits_per_sample big_endian is_signed).1
      (Standalone.pcmr_open h0 file sample_rate channels bits_per_sample big_endian is_signed).2
      (malloc_wf hw0)
    rw [hreg] at hreader hw2 hlive
    simp only [Standalone.pcmr_open, List.append_nil] at hreader hfresh hlive
    subst hreader
    obtain ⟨h3, h4, hfree, hfree2, hgone, _, hsame⟩ :=
      close_heap_spec hw0 rfl hnd hfresh hw2 hlive
    refine ⟨{ returnval := 1, heap := h4,
              freed := added.map pcmr_callback.addr ++ [(malloc h0).1],
              source_close_failed := decide (file.fclose_result ≠ 0) },
      ?_, ?_, hnd, rfl, hgone, hsame, rfl⟩
    · simp only [Standalone.pcmr_close, hfree, hfree2, Standalone.fclose]
    · have := congrArg List.length hmap
      simpa using this
  · intro h0 h1 pcmreader opened regs h2 reader hw0 hopen hreg
    obtain ⟨hh1, haddr, hempty, _⟩ := Py.pcmr_open_some hopen
    subst hh1
    obtain ⟨added, hreader, hmap, hnd, hfresh, hw2, hlive⟩ :=
      Py.py_register_all_spec regs (malloc h0).2 opened (malloc_wf hw0)
    rw [hreg] at hreader hw2 hlive
    simp only [hempty, List.append_nil] at hreader
    subst hreader
    obtain ⟨h3, h4, hfree, hfree2, hgone, _, hsame⟩ :=
      close_heap_spec hw0 haddr hnd hfresh hw2 hlive
    refine ⟨{ returnval := if (opened.close.call none).isNone then 0 else 1, heap := h4,
              freed := added.map pcmr_callback.addr ++ [opened.addr],
              source_close_failed := (opened.close.call none).isNone },
      ?_, ?_, hnd, rfl, hgone, hsame, rfl⟩
    · simp only [Py.pcmr_close, hfree, hfree2]
    · have := congrArg List.length hmap
      simpa using this

/-- Witness for C8: two registered handlers, and a source whose close fails, in both
variants. -/
theorem pcmr_close_frees_callbacks_witness :
    (∃ r, Standalone.pcmr_close { live := [2, 1, 0], next := 3 } ex_reader_bad_close = some r
      ∧ ex_reader_bad_close.callback.length = [((10 : Nat), (100 : Nat)), (20, 200)].length
      ∧ (ex_reader_bad_close.callback.map pcmr_callback.addr).Nodup
      ∧ r.freed = ex_reader_bad_close.callback.map pcmr_callback.addr ++ [ex_reader_bad_close.addr]
      ∧ (∀ node ∈ ex_reader_bad_close.callback, node.addr ∉ r.heap.live)
      ∧ (∀ a, a ∈ r.heap.live ↔ a ∈ ([] : List Nat))
      ∧ r.source_close_failed = decide (ex_file_bad_close.fclose_result ≠ 0))
    ∧ (∃ r, Py.pcmr_close { live := [2, 1, 0], next := 3 } ex_py_reader_two_callbacks = some r
      ∧ ex_py_reader_two_callbacks.callback.length
          = [((10 : Nat), (100 : Nat)), (20, 200)].length
      ∧ (ex_py_reader_two_callbacks.callback.map pcmr_callback.addr).Nodup
      ∧ r.freed = ex_py_reader_two_callbacks.callback.map pcmr_callback.addr
          ++ [ex_py_reader_two_callbacks.addr]
      ∧ (∀ node ∈ ex_py_reader_two_callbacks.callback, node.addr ∉ r.heap.live)
      ∧ (∀ a, a ∈ r.heap.live ↔ a ∈ ([] : List Nat))
      ∧ r.source_close_failed = (ex_py_reader.close.call none).isNone) :=
  ⟨pcmr_close_frees_callbacks.1 { live := [], next := 0 } ex_file_bad_close 44100 2 16 0 1
      [(10, 100), (20, 200)] { live := [2, 1, 0], next := 3 } ex_reader_bad_close
      ⟨List.nodup_nil, by simp⟩ rfl,
   pcmr_close_frees_callbacks.2 { live := [], next := 0 } { live := [0], next := 1 }
      ex_pcmreader ex_py_reader [(10, 100), (20, 200)] { live := [2, 1, 0], next := 3 }
      ex_py_reader_two_callbacks ⟨List.nodup_nil, by simp⟩ rfl rfl⟩

/-- C9 (as stated, refuted): a source whose `sample_rate` is 0, `bits_per_sample` is
-16 and `channels` is 0 is opened all the same. -/
theorem pcmr_open_accepts_nonpositive :
    ¬ (∀ (h : Heap) (pcmreader : Py.PyPCMReader) (reader : Py.pcm_reader),
        (Py.pcmr_open h pcmreader).2 = some reader →
          0 < reader.sample_rate ∧ 0 < reader.bits_per_sample ∧ 0 < reader.channels) := by
  intro h
  have h1 := h { live := [], next := 0 } ex_pcmreader_nonpositive
    { ex_py_reader with sample_rate := 0, bits_per_sample := -16, channels := 0 } rfl
  exact absurd h1.1 (by decide)

/-- C9 (amended): the managed-object `pcmr_open` returns a reader exactly when
`sample_rate`, `bits_per_sample` and `channels` are each present and convert to an
integer and `read` and `close` are both present and callable; the sign of the three
integers is not looked at. -/
theorem pcmr_open_succeeds_iff (h : Heap) (pcmreader : Py.PyPCMReader) :
    (Py.pcmr_open h pcmreader).2.isSome = true ↔
      (∃ a, pcmreader.sample_rate = some a ∧ a.as_long.isSome = true)
      ∧ (∃ a, pcmreader.bits_per_sample = some a ∧ a.as_long.isSome = true)
      ∧ (∃ a, pcmreader.channels = some a ∧ a.as_long.isSome = true)
      ∧ (∃ f, pcmreader.read = some f ∧ f.callable = true)
      ∧ (∃ f, pcmreader.close = some f ∧ f.callable = true) := by
  constructor
  · intro hsome
    obtain ⟨reader, hreader⟩ := Option.isSome_iff_exists.mp hsome
    have hopen : Py.pcmr_open h pcmreader = ((Py.pcmr_open h pcmreader).1, some reader) := by
      rw [← hreader]
    obtain ⟨_, _, _, ⟨a, ha, ha2⟩, ⟨b, hb, hb2⟩, ⟨c, hc, hc2⟩, hrd, hrd2, hcl, hcl2⟩ :=
      Py.pcmr_open_some hopen
    exact ⟨⟨a, ha, by simp [ha2]⟩, ⟨b, hb, by simp [hb2]⟩, ⟨c, hc, by simp [hc2]⟩,
      ⟨_, hrd, hrd2⟩, ⟨_, hcl, hcl2⟩⟩
  · rintro ⟨⟨a, ha, ha2⟩, ⟨b, hb, hb2⟩, ⟨c, hc, hc2⟩, ⟨f, hf, hf2⟩, ⟨g, hg, hg2⟩⟩
    obtain ⟨va, hva⟩ := Option.isSome_iff_exists.mp ha2
    obtain ⟨vb, hvb⟩ := Option.isSome_iff_exists.mp hb2
    obtain ⟨vc, hvc⟩ := Option.isSome_iff_exists.mp hc2
    simp [Py.pcmr_open, Py.PyInt_AsLong, ha, hb, hc, hf, hg, hva, hvb, hvc, hf2, hg2]

/-- C10 (as stated, refuted): on a five-byte read of a 16-bit reader the handler gets
length 5 and a buffer ending in the unconverted fifth byte, while the two decoded samples
encode to 4 bytes. -/
theorem pcmr_read_callback_length_not_encoding :
    ¬ (∀ (reader : Standalone.pcm_reader) (sample_count : Int) (samples : ia_array)
        (r : Standalone.read_result),
        Standalone.pcmr_read reader sample_count samples = some r → r.returnval = 1 →
          ∀ call ∈ r.calls,
            call.buffer = encode r.buffer_samples reader.bits_per_sample
            ∧ call.length
                = r.buffer_samples.length * (Int.tdiv reader.bits_per_sample 8).toNat) := by
  intro h
  have h1 := h ex_reader_misaligned_callback 3 [[], []]
    { returnval := 1, samples := [[1], [2]], read := { data := [], fclose_result := 0 },
      source_reads := [12], buffer_samples := [1, 2],
      calls := [{ callback := 7, data := 70, buffer := [1, 0, 2, 0, 3], length := 5 }] }
    rfl rfl { callback := 7, data := 70, buffer := [1, 0, 2, 0, 3], length := 5 }
    (by decide)
  exact absurd h1.2 (by decide)

/-- C10 (amended): for every source byte order and signedness, when the source returns a
whole number of samples (a byte count that is a multiple of `bits_per_sample / 8`), the
buffer the raw-stream `pcmr_read` hands to each handler is the signed little-endian
encoding, at the reader's `bits_per_sample`, of the whole decoded sample sequence, and
the length handed over is the number of decoded samples times `bits_per_sample / 8`; the
managed-object `pcmr_read` hands over the same for a FrameList whose bit depth is the
reader's. -/
theorem pcmr_read_callback_buffer :
    (∀ (reader : Standalone.pcm_reader) (sample_count : Int) (samples : ia_array)
        (r : Standalone.read_result),
        Standalone.pcmr_read reader sample_count samples = some r →
        (Standalone.supplied reader sample_count samples).length
          % (Int.tdiv reader.bits_per_sample 8).toNat = 0 →
          ∀ call ∈ r.calls,
            call.buffer = encode r.buffer_samples reader.bits_per_sample
            ∧ call.length
                = r.buffer_samples.length * (Int.tdiv reader.bits_per_sample 8).toNat)
    ∧ (∀ (env : Py.PyEnv) (reader : Py.pcm_reader) (sample_count : Int) (samples : ia_array)
        (r : Py.read_result) (fl : Py.pcm_FrameList),
        Py.pcmr_read env reader sample_count samples = some r → r.returnval = 1 →
        reader.read.call (some (byte_count sample_count reader.bits_per_sample samples.length))
            = some (Py.PyResult.FrameList fl) →
        fl.bits_per_sample = reader.bits_per_sample →
          ∀ call ∈ r.calls,
            call.buffer = encode r.buffer_samples reader.bits_per_sample
            ∧ call.length
                = r.buffer_samples.length * (Int.tdiv reader.bits_per_sample 8).toNat) := by
  constructor
  · intro reader sample_count samples r h haligned call hcall
    obtain ⟨_, _, _, hbuf, _, hcalls⟩ := Standalone.pcmr_read_fields h
    have hlen : r.buffer_samples.length * (Int.tdiv reader.bits_per_sample 8).toNat
        = (Standalone.supplied reader sample_count samples).length := by
      rw [hbuf, length_FrameList_char_to_samples]
      exact Nat.div_mul_cancel (Nat.dvd_of_mod_eq_zero haligned)
    rw [hcalls, apply_callbacks_eq_map, samples_to_char_aligned _ _ _ (by omega)] at hcall
    obtain ⟨node, _, rfl⟩ := List.mem_map.mp hcall
    exact ⟨rfl, hlen.symm⟩
  · intro env reader sample_count samples r fl h hret hfl hbps call hcall
    obtain ⟨fl2, buffer, hfl2, hbuf, _, hbytes, hcalls⟩ := Py.pcmr_read_success h hret
    rw [hfl] at hfl2
    cases hfl2
    have hb : buffer = encode r.buffer_samples reader.bits_per_sample := by
      have hs : (Py.set_signed fl).bits_per_sample = fl.bits_per_sample := by
        unfold Py.set_signed
        split <;> rfl
      simp only [Py.to_bytes, Option.some.injEq, hs] at hbytes
      rw [← hbytes, hbuf, hbps]
      rfl
    rw [hcalls, apply_callbacks_eq_map] at hcall
    obtain ⟨node, _, rfl⟩ := List.mem_map.mp hcall
    refine ⟨hb, ?_⟩
    simp only [hb, length_encode]

/-- Witness for C10 (amended): a twelve-byte read of a 16-bit reader, in both
variants. -/
theorem pcmr_read_callback_buffer_witness :
    (∀ call ∈ ex_result_callback.calls,
      call.buffer = encode ex_result_callback.buffer_samples ex_reader_one_callback.bits_per_sample
      ∧ call.length = ex_result_callback.buffer_samples.length
          * (Int.tdiv ex_reader_one_callback.bits_per_sample 8).toNat)
    ∧ (∀ call ∈ ex_py_result_two_callbacks.calls,
      call.buffer
        = encode ex_py_result_two_callbacks.buffer_samples ex_py_reader_two_callbacks.bits_per_sample
      ∧ call.length = ex_py_result_two_callbacks.buffer_samples.length
          * (Int.tdiv ex_py_reader_two_callbacks.bits_per_sample 8).toNat) :=
  ⟨pcmr_read_callback_buffer.1 ex_reader_one_callback 3 [[], []] ex_result_callback rfl
      (by decide),
   pcmr_read_callback_buffer.2 ex_env ex_py_reader_two_callbacks 3 [[], []]
      ex_py_result_two_callbacks
      { samples := [1, 2, 3, 4, 5, 6], bits_per_sample := 16, is_signed := true } rfl rfl rfl rfl⟩

end PcmReader
